import Mathlib

set_option maxRecDepth 100000

/-!
Verification of the DynamicWebToS3Migration archiver.

This development gives a shallow embedding of the two Python programs
`WebHtmlDownload.py` (crawl engine) and `AwsS3Upload.py` (upload pass) and
proves or refutes the frozen claims about them.

Conventions:
* Python strings are Lean `String`; all string manipulation is implemented
  on `String.toList` (`List Char`) so that every definition reduces in the
  kernel and every lemma is provable by list induction.
* Python `set` objects are duplicate-free `List String` with an
  order-preserving insert (`sinsert`); the on-disk file system is an
  association list from path to content.
* The HTTP layer (`requests.get` plus `raise_for_status`) is a finite
  association list from URL to response; `none` models a raised
  `RequestException` (transport error or error status).  A single run sees a
  fixed server, which models the synchronous single-threaded crawl.
* `BeautifulSoup` documents are rose trees (`Node`/`NodeList`); parsing of
  raw bytes is not modelled, instead each server response carries both its
  raw bytes and the tree that `BeautifulSoup` would produce for them.
-/

/-! ## String helpers (all on `List Char`) -/

/-- Prefix test on character lists. -/
def isPre : List Char → List Char → Bool
  | [], _ => true
  | _ :: _, [] => false
  | a :: as, b :: bs => a = b && isPre as bs

/-- Character membership on character lists. -/
def containsC : List Char → Char → Bool
  | [], _ => false
  | x :: t, c => x = c || containsC t c

/-- Python `s.startswith(t)`: `t.toList` is a prefix of `s.toList`. -/
def startsWithStr (s t : String) : Bool :=
  isPre t.toList s.toList

/-- Python `s.endswith(t)`: `t.toList` is a suffix of `s.toList`. -/
def endsWithStr (s t : String) : Bool :=
  isPre t.toList.reverse s.toList.reverse

/-- Python `c in s` for a single character. -/
def containsChar (s : String) (c : Char) : Bool :=
  containsC s.toList c

/-- Python `s.split(c)[0]`: the prefix of `s` before the first occurrence of
the character `c` (the whole string when `c` does not occur). -/
def takeUntilChar (s : String) (c : Char) : String :=
  ⟨s.toList.takeWhile (· ≠ c)⟩

/-- Python `s.rstrip('/')`: drop every trailing slash. -/
def rstripSlashes (s : String) : String :=
  ⟨(s.toList.reverse.dropWhile (· = '/')).reverse⟩

/-- Fuel-driven core of Python `str.replace`: scan left to right, replacing
each non-overlapping occurrence of `pat` by `repl`.  The fuel is consumed one
unit per examined source position, so `l.length` units always suffice. -/
def replFuel (pat repl : List Char) : Nat → List Char → List Char
  | 0, l => l
  | _ + 1, [] => []
  | fuel + 1, c :: cs =>
    if pat ≠ [] ∧ isPre pat (c :: cs) = true then
      repl ++ replFuel pat repl fuel (List.drop pat.length (c :: cs))
    else
      c :: replFuel pat repl fuel cs

/-- Python `s.replace(pat, repl)` (for the non-empty patterns used by the
program; an empty pattern degenerates to the identity here). -/
def pyReplace (s pat repl : String) : String :=
  ⟨replFuel pat.toList repl.toList s.toList.length s.toList⟩

/-- Python `s.strip()` restricted to ASCII blanks, as used on metadata lines. -/
def pyStrip (s : String) : String :=
  let ws : Char → Bool := fun c => c = ' ' ∨ c = '\t' ∨ c = '\n' ∨ c = '\r'
  ⟨((s.toList.dropWhile ws).reverse.dropWhile ws).reverse⟩

/-- The extension part of `os.path.splitext(p)[1]` for a backslash-separated
path: the suffix of the last path component starting at its last dot, where
dots leading the component do not count (`".bashrc"` has no extension). -/
def splitextExt (p : String) : String :=
  let base := (p.toList.reverse.takeWhile (· ≠ '\\')).reverse
  let core := base.dropWhile (· = '.')
  if core.contains '.' then ⟨'.' :: (core.reverse.takeWhile (· ≠ '.')).reverse⟩
  else ""

/-- Lexicographic comparison of strings by code point, as Python compares
`str` values when sorting. -/
def lexLe : List Char → List Char → Bool
  | [], _ => true
  | _ :: _, [] => false
  | a :: as, b :: bs =>
    if a.toNat < b.toNat then true
    else if b.toNat < a.toNat then false
    else lexLe as bs

/-- String order used for every `sorted(...)` in the program. -/
def strLe (a b : String) : Bool :=
  lexLe a.toList b.toList

/-- Insert into a list sorted by `strLe`. -/
def insertSorted (u : String) : List String → List String
  | [] => [u]
  | v :: t => if strLe u v then u :: v :: t else v :: insertSorted u t

/-- Python `sorted` on a collection of strings (as a sorting function; the
program only sorts duplicate-free collections, so stability is irrelevant). -/
def sortStr (l : List String) : List String :=
  l.foldr insertSorted []

/-- Python `set.add`: append the element unless it is already present (the
order chosen is insertion order; the program never depends on set order
except through `sorted`). -/
def sinsert (u : String) (l : List String) : List String :=
  if u ∈ l then l else l ++ [u]

/-- Python `set.remove` / conditioned removal: drop every occurrence. -/
def sremove (u : String) (l : List String) : List String :=
  l.filter (· ≠ u)

/-- Overwriting write into the modelled file system. -/
def fset (k v : String) (fs : List (String × String)) : List (String × String) :=
  (k, v) :: fs

/-- Read back the current content of a path: the most recent write wins. -/
def flookup (fs : List (String × String)) (k : String) : Option String :=
  match fs with
  | [] => none
  | (k', v) :: t => if k' = k then some v else flookup t k

/-- Association-list lookup used for the modelled HTTP server. -/
def slookup {β : Type} (u : String) : List (String × β) → Option β
  | [] => none
  | (k, v) :: t => if k = u then some v else slookup u t

/-- Disjointness of two lists, computably. -/
def disjointL (a b : List String) : Bool :=
  a.all (fun u => ¬ b.contains u)

/-! ## HTML documents: the `BeautifulSoup` fragment the program uses -/

mutual
/-- One parse-tree node: an element with tag name, attribute list (in
document order) and children, or a text node. -/
inductive Node where
  | elem : String → List (String × String) → NodeList → Node
  | text : String → Node
/-- A list of sibling nodes. -/
inductive NodeList where
  | nil : NodeList
  | cons : Node → NodeList → NodeList
end

/-- Converts a Lean list of nodes into a `NodeList`. -/
def NL : List Node → NodeList
  | [] => .nil
  | n :: t => .cons n (NL t)

/-- Number of top-level siblings. -/
def NodeList.length : NodeList → Nat
  | .nil => 0
  | .cons _ t => 1 + t.length

/-- First value of an attribute, like `tag.get(name)` (`bs4` keeps one value
per attribute name). -/
def attrOf (name : String) : Node → Option String
  | .elem _ attrs _ => slookup name attrs
  | .text _ => none

/-- Whether an element's `class` attribute contains the given class name,
like the `class_=` filter of `bs4` (the attribute value is space-separated). -/
def hasClass (cls : String) (n : Node) : Bool :=
  match attrOf "class" n with
  | some v => (v.toList.splitOnP (· = ' ')).contains cls.toList
  | none => false

/-- Whether a node is an element with the given tag and `id` attribute. -/
def isTagWithId (tag idv : String) : Node → Bool
  | .elem t attrs _ => t = tag ∧ slookup "id" attrs = some idv
  | .text _ => false

mutual
/-- Concatenated text of a node, like the `.text` property of `bs4`. -/
def textOf : Node → String
  | .elem _ _ c => textOfL c
  | .text s => s
def textOfL : NodeList → String
  | .nil => ""
  | .cons n t => textOf n ++ textOfL t
end

mutual
/-- First `<h3>` element among the descendants of the given nodes, pre-order,
like `tag.find('h3')` (which searches descendants only). -/
def findH3 : Node → Option Node
  | .elem t a c => if t = "h3" then some (.elem t a c) else findH3L c
  | .text _ => none
def findH3L : NodeList → Option Node
  | .nil => none
  | .cons n t =>
    match findH3 n with
    | some h => some h
    | none => findH3L t
end

mutual
/-- First node (pre-order, self included) that is an element with the given
tag and `id`, like `soup.find(tag, id=idv)`. -/
def findById (tag idv : String) : Node → Option Node
  | .elem t a c =>
    if isTagWithId tag idv (.elem t a c) then some (.elem t a c)
    else findByIdL tag idv c
  | .text _ => none
def findByIdL (tag idv : String) : NodeList → Option Node
  | .nil => none
  | .cons n t =>
    match findById tag idv n with
    | some h => some h
    | none => findByIdL tag idv t
end

/-- Heading text of the promotional widget removed by the rewriter
(source line 144). -/
def rankingTitle : String := "人気記事ランキング"

/-- Whether a node is a `div` of class `widget` whose first `<h3>` descendant
has exactly the known banner title; such nodes are `decompose`d by the loop
at source lines 143-145.  The loop iterates over the `find_all` snapshot in
document order and `decompose` empties each removed subtree, so its net
effect is: walking the tree top-down, delete every such `div` (descendants of
a deleted `div` are never considered again), and keep scanning inside every
other node. -/
def isRankingWidget : Node → Bool
  | .elem t a c =>
    t = "div" ∧ hasClass "widget" (.elem t a c) ∧
      (findH3L c).map textOf = some rankingTitle
  | .text _ => false

mutual
/-- Widget-removal pass (source lines 143-145), as described at
`isRankingWidget`. -/
def removeWidgets : Node → Option Node
  | .elem t a c =>
    if isRankingWidget (.elem t a c) then none
    else some (.elem t a (removeWidgetsL c))
  | .text s => some (.text s)
def removeWidgetsL : NodeList → NodeList
  | .nil => .nil
  | .cons n t =>
    match removeWidgets n with
    | some n' => .cons n' (removeWidgetsL t)
    | none => removeWidgetsL t
end

mutual
/-- Removal of the first `<li id="view_sp">` (source lines 146-148:
`soup.find` returns the first match in document order, which is then
`decompose`d).  The result is `none` when the node itself was removed; the
boolean reports whether a removal happened somewhere. -/
def removeViewSp : Node → Option Node × Bool
  | .elem t a c =>
    if isTagWithId "li" "view_sp" (.elem t a c) then (none, true)
    else
      let (c', found) := removeViewSpL c
      (some (.elem t a c'), found)
  | .text s => (some (.text s), false)
def removeViewSpL : NodeList → NodeList × Bool
  | .nil => (.nil, false)
  | .cons n t =>
    match removeViewSp n with
    | (none, _) => (t, true)
    | (some n', true) => (.cons n' t, true)
    | (some n', false) =>
      let (t', found) := removeViewSpL t
      (.cons n' t', found)
end

/-- The archive-notice banner element inserted by the rewriter
(source lines 152-161). -/
def bannerDiv : Node :=
  .elem "div" [("id", "headerBanner")]
    (NL [.elem "span" [("class", "da-fg da-gray")]
      (NL [.elem "span" [("class", "da-bg da-yellow")]
        (NL [.text "　　本ページはアーカイブです。　　"])])])

/-- The fragment actually spliced in: the `BeautifulSoup` constructed from
the banner string contains the `div` and a trailing newline text node, and
both `replace_with` and `insert_before` with that soup splice both nodes. -/
def bannerFrag : List Node := [bannerDiv, .text "\n"]

/-- Prepend a Lean list of nodes onto a `NodeList`. -/
def appendNL : List Node → NodeList → NodeList
  | [], t => t
  | n :: ns, t => .cons n (appendNL ns t)

mutual
/-- Replace the first element (pre-order) with the given tag and `id` by the
fragment `frag`, splicing it into the surrounding sibling list; models
`header_banner.replace_with(new_banner)`.  `none` means no match. -/
def replaceById (tag idv : String) (frag : List Node) : Node → Option (List Node)
  | .elem t a c =>
    if isTagWithId tag idv (.elem t a c) then some frag
    else
      match replaceByIdL tag idv frag c with
      | some c' => some [.elem t a c']
      | none => none
  | .text _ => none
def replaceByIdL (tag idv : String) (frag : List Node) : NodeList → Option NodeList
  | .nil => none
  | .cons n t =>
    match replaceById tag idv frag n with
    | some ns => some (appendNL ns t)
    | none =>
      match replaceByIdL tag idv frag t with
      | some t' => some (.cons n t')
      | none => none
end

mutual
/-- Insert the fragment `frag` immediately before the first element
(pre-order) with the given tag and `id`; models
`body_grid.insert_before(new_banner)`.  `none` means no match. -/
def insertBeforeById (tag idv : String) (frag : List Node) : Node → Option Node
  | .elem t a c =>
    match insertBeforeByIdL tag idv frag c with
    | some c' => some (.elem t a c')
    | none => none
  | .text _ => none
def insertBeforeByIdL (tag idv : String) (frag : List Node) : NodeList → Option NodeList
  | .nil => none
  | .cons n t =>
    if isTagWithId tag idv n then some (appendNL frag (.cons n t))
    else
      match insertBeforeById tag idv frag n with
      | some n' => some (.cons n' t)
      | none =>
        match insertBeforeByIdL tag idv frag t with
        | some t' => some (.cons n t')
        | none => none
end

/-- The complete structural rewrite of source lines 142-161: remove ranking
widgets, remove the first `view_sp` list item, then replace the existing
`headerBanner` by the archive banner, or failing that insert the banner
before `bodyGrid`, or failing that leave the document as is. -/
def applyEdits (d : NodeList) : NodeList :=
  let d1 := removeWidgetsL d
  let d2 := (removeViewSpL d1).1
  match replaceByIdL "div" "headerBanner" bannerFrag d2 with
  | some d3 => d3
  | none =>
    match insertBeforeByIdL "div" "bodyGrid" bannerFrag d2 with
    | some d3 => d3
    | none => d2

/-! ## Serialization (`str(soup)`) and link collection -/

/-- HTML void elements, which `bs4` serializes self-closing. -/
def isVoidTag (t : String) : Bool :=
  ["area", "base", "br", "col", "embed", "hr", "img", "input", "link",
   "meta", "source", "track", "wbr"].contains t

/-- Attribute rendering of `str(soup)`: a space, the name, `="value"`. -/
def serializeAttrs : List (String × String) → String
  | [] => ""
  | (k, v) :: t => " " ++ k ++ "=\"" ++ v ++ "\"" ++ serializeAttrs t

mutual
/-- Serialization of one node, as `str(soup)` renders it (entity escaping is
not modelled; no document handled by a claim contains `&`, `<` or `>` as
text). -/
def serializeN : Node → String
  | .elem t a c =>
    if isVoidTag t then "<" ++ t ++ serializeAttrs a ++ "/>"
    else "<" ++ t ++ serializeAttrs a ++ ">" ++ serializeL c ++ "</" ++ t ++ ">"
  | .text s => s
def serializeL : NodeList → String
  | .nil => ""
  | .cons n t => serializeN n ++ serializeL t
end

mutual
/-- All `<a>` and `<img>` elements in document order, like
`soup.find_all(['a', 'img'])`. -/
def collectAImg : Node → List Node
  | .elem t a c =>
    (if t = "a" ∨ t = "img" then [Node.elem t a c] else []) ++ collectAImgL c
  | .text _ => []
def collectAImgL : NodeList → List Node
  | .nil => []
  | .cons n t => collectAImg n ++ collectAImgL t
end

/-! ## Configuration and URL policy -/

/-- The fields of `config.ini` consumed by `WebHtmlDownload.py`
(source lines 24-43). -/
structure Cfg where
  domainName : String
  topLocalName : String
  sitemapUrlPath : String
  indexFileName : String

/-- Source line 29: `top_page_url = f'https://{domain_name}'`. -/
def topPageUrl (cfg : Cfg) : String := "https://" ++ cfg.domainName

/-- Source line 33: the local mirror root. -/
def topLocalDir (cfg : Cfg) : String := ".\\" ++ cfg.topLocalName

/-- Source line 38: the sitemap feed URL. -/
def sitemapUrl (cfg : Cfg) : String := topPageUrl cfg ++ cfg.sitemapUrlPath

/-- Source line 39: local path of the generated output sitemap. -/
def sitemapFilePath (cfg : Cfg) : String :=
  pyReplace (topLocalDir cfg ++ cfg.sitemapUrlPath) "/" "\\"

/-- Source line 43: local file for the top page. -/
def topLocalFile (cfg : Cfg) : String :=
  ".\\" ++ cfg.topLocalName ++ "\\" ++ cfg.indexFileName

/-- Splits `scheme://rest` at the first `://`. -/
def splitSchemeRest : List Char → Option (List Char × List Char)
  | [] => none
  | ':' :: '/' :: '/' :: rest => some ([], rest)
  | c :: rest => (splitSchemeRest rest).map (fun p => (c :: p.1, p.2))

/-- The `scheme://host` part of a URL. -/
def originOf (u : String) : String :=
  match splitSchemeRest u.toList with
  | some (sch, rest) => String.mk sch ++ "://" ++ String.mk (rest.takeWhile (· ≠ '/'))
  | none => u

/-- The URL up to and including the final slash of its path (the resolution
base for relative references). -/
def baseDir (u : String) : String :=
  match splitSchemeRest u.toList with
  | some (_, rest) =>
    if rest.contains '/' then String.mk ((u.toList.reverse.dropWhile (· ≠ '/')).reverse)
    else u ++ "/"
  | none => u

/-- Models `urllib.parse.urljoin` for the reference shapes occurring here:
absolute `http(s)` references are returned unchanged, scheme-relative ones
get the base's `https` scheme, root-relative ones are resolved against the
origin, and other relative ones against the base's directory. -/
def urljoin (base href : String) : String :=
  if startsWithStr href "http://" ∨ startsWithStr href "https://" then href
  else if startsWithStr href "//" then "https:" ++ href
  else if startsWithStr href "/" then originOf base ++ href
  else baseDir base ++ href

/-- The host part of an absolute URL: the authority between the scheme
separator and the next slash. -/
def hostOf (u : String) : String :=
  match splitSchemeRest u.toList with
  | some (_, rest) => String.mk (rest.takeWhile (· ≠ '/'))
  | none => ""

/-- Same-origin in the sense of the specification's glossary ("sharing the
configured top-level domain of the site being archived"): the link's host is
the configured domain.  This definition follows the spec's words, for
comparison with the code's acceptance test — the code instead tests whether
the resolved link *string* starts with the top page URL (lines 190/194),
which also accepts hosts that merely extend the domain as a string prefix. -/
def specSameOrigin (cfg : Cfg) (u : String) : Bool :=
  hostOf u = cfg.domainName

/-- The tagcloud query prefix special-cased at source lines 224 and 236. -/
def tagQ (cfg : Cfg) : String := topPageUrl cfg ++ "/tagcloud?tag="

/-- Source line 224: `url.startswith(f'{top_page_url}/tagcloud?tag=')`. -/
def isTagUrl (cfg : Cfg) (u : String) : Bool := startsWithStr u (tagQ cfg)

/-- A URL that the worklist loop treats as a query-duplicate: it carries a
query string and is not a tagcloud query URL (source line 225). -/
def qshape (cfg : Cfg) (u : String) : Bool :=
  containsChar u '?' && !(isTagUrl cfg u)

/-- Source line 234: URL path mapped onto the local mirror root with
backslash separators. -/
def localPath0 (cfg : Cfg) (u : String) : String :=
  pyReplace (pyReplace u (topPageUrl cfg) (topLocalDir cfg)) "/" "\\"

/-- Source lines 234-236: the local path after the tagcloud path rewrite. -/
def localPathOf (cfg : Cfg) (u : String) : String :=
  if isTagUrl cfg u then pyReplace (localPath0 cfg u) "\\tagcloud?tag=" "\\tagcloud\\"
  else localPath0 cfg u

/-- Source line 239: the condition selecting the raw-byte extension branch:
the local path has a file extension and the URL is not a tagcloud query. -/
def extBranchCond (cfg : Cfg) (u : String) : Bool :=
  !(splitextExt (localPathOf cfg u) = "") && !(isTagUrl cfg u)

/-! ## The HTTP layer and crawl state -/

/-- One successful `requests.get` outcome: whether `response.history` is
non-empty, the raw `response.content` bytes, the tree `BeautifulSoup` yields
for those bytes, and the `Content-Type` header if present. -/
structure Resp where
  redirected : Bool
  raw : String
  doc : NodeList
  contentType : Option String

/-- The deterministic server seen by one run; `slookup` returning `none`
models `requests.get` raising (transport error or `raise_for_status`). -/
abbrev Server := List (String × Resp)

/-- The mutable module-level state of the crawl: the three bookkeeping sets,
the pending worklist, and the written files and metadata sidecars. -/
structure St where
  processed : List String
  skipped : List String
  retryUrls : List String
  pending : List String
  files : List (String × String)
  metas : List (String × String)

/-- The `href` arm of link collection (source lines 189-195): accept the
attribute when truthy and same-origin-or-relative, resolve, cut the
fragment, cut trailing slashes, and keep the result only when it still
starts with the top page URL. -/
def addLinkHref (cfg : Cfg) (pageUrl href : String) (acc : List String) : List String :=
  if href ≠ "" ∧ (startsWithStr href (topPageUrl cfg) ∨ ¬ startsWithStr href "http") then
    let fu := rstripSlashes (takeUntilChar (urljoin pageUrl href) '#')
    if startsWithStr fu (topPageUrl cfg) then sinsert fu acc else acc
  else acc

/-- The `src` arm of link collection (source lines 196-200): like `href` but
with no fragment or trailing-slash normalization. -/
def addLinkSrc (cfg : Cfg) (pageUrl src : String) (acc : List String) : List String :=
  if src ≠ "" ∧ (startsWithStr src (topPageUrl cfg) ∨ ¬ startsWithStr src "http") then
    let fu := urljoin pageUrl src
    if startsWithStr fu (topPageUrl cfg) then sinsert fu acc else acc
  else acc

/-- The per-tag body of the collection loop: the `href` attribute is
handled first, then the `src` attribute (source lines 186-200). -/
def linkStep (cfg : Cfg) (pageUrl : String) (acc : List String) (tg : Node) : List String :=
  let acc1 := match attrOf "href" tg with
    | some h => addLinkHref cfg pageUrl h acc
    | none => acc
  match attrOf "src" tg with
  | some s => addLinkSrc cfg pageUrl s acc1
  | none => acc1

/-- Link collection over all `<a>`/`<img>` tags (source lines 184-201). -/
def extractLinks (cfg : Cfg) (pageUrl : String) (doc : NodeList) : List String :=
  (collectAImgL doc).foldl (linkStep cfg pageUrl) []

/-- `download_html` (source lines 123-206).  The retry gate is line 124; a
`none` lookup stands for all `WEB_RETRY_COUNT` attempts raising (the server
is deterministic, so one failing attempt means three), after which line 205
adds the URL to the retry set and the function falls off its loop returning
Python `None`; the redirect check is lines 133-137; the success path parses,
rewrites (`applyEdits`), serializes with the tagcloud byte rewrite
(line 168), writes the file and its metadata sidecar (lines 171-177),
removes the URL from the retry set (lines 179-180) and collects links when
`recursive` (lines 184-201). -/
def download_html (sv : Server) (cfg : Cfg) (retryMode : Bool)
    (url localPath : String) (recursive : Bool) (st : St) :
    St × Option (List String) :=
  if retryMode = true ∧ url ∉ st.retryUrls then (st, some [])
  else
    match slookup url sv with
    | none => ({ st with retryUrls := sinsert url st.retryUrls }, none)
    | some r =>
      if r.redirected then ({ st with skipped := sinsert url st.skipped }, none)
      else
        let soup := applyEdits r.doc
        let content := pyReplace (serializeL soup) "/tagcloud?tag=" "/tagcloud/"
        let ct := r.contentType.getD "text/html"
        let st1 := { st with
          files := fset localPath content st.files,
          metas := fset (localPath ++ ".metadata")
            ("Content-Type: " ++ ct ++ "\n") st.metas }
        let st2 := { st1 with retryUrls := sremove url st1.retryUrls }
        (st2, some (if recursive then extractLinks cfg url soup else []))

/-- The shared tail of one worklist iteration (source lines 272-278): call
`download_html`; a `None` result leaves the state as is, otherwise the URL
is recorded as processed and the discovered links are merged into the
pending set.  (The `except` arms at lines 279-281 are dead: `download_html`
catches its own request and IO errors.) -/
def dhAndMark (sv : Server) (cfg : Cfg) (retryMode : Bool) (url lp : String) (st : St) : St :=
  match download_html sv cfg retryMode url lp true st with
  | (st', none) => st'
  | (st', some links) =>
    { st' with processed := sinsert url st'.processed,
               pending := links.foldl (fun p l => sinsert l p) st'.pending }

/-- The body of one worklist iteration (source lines 231-278) on the
stripped URL: the already-processed check (line 231), local-path computation
(lines 234-237), the raw extension branch (lines 239-267), and — in all
cases, because the extension branch does not `continue` — the
`download_html` call of line 273, with the index file name appended to the
path only in the non-extension branch (line 270). -/
def wsCore (sv : Server) (cfg : Cfg) (retryMode : Bool) (url : String) (st : St) : St :=
  if url ∈ st.processed then st
  else if extBranchCond cfg url = true then
    let lp := localPathOf cfg url
    let st2 := match slookup url sv with
      | some r =>
        { st with
          files := fset lp r.raw st.files,
          metas := fset (lp ++ ".metadata")
            ("Content-Type: " ++ r.contentType.getD "application/octet-stream" ++ "\n") st.metas,
          retryUrls := sremove url st.retryUrls,
          processed := sinsert url st.processed }
      | none => { st with retryUrls := sinsert url st.retryUrls }
    dhAndMark sv cfg retryMode url lp st2
  else
    dhAndMark sv cfg retryMode url (localPathOf cfg url ++ "\\" ++ cfg.indexFileName) st

/-- The query-strip phase (source lines 223-229) followed by the body of the
iteration (`wsCore`). -/
def worklistStep (sv : Server) (cfg : Cfg) (retryMode : Bool) (url0 : String) (st : St) : St :=
  let strip := containsChar url0 '?' = true ∧ isTagUrl cfg url0 = false
  let url := if strip then takeUntilChar url0 '?' else url0
  let st := if strip then { st with skipped := sinsert url0 st.skipped } else st
  wsCore sv cfg retryMode url st

/-- The draining loop (source lines 220-285), fuel-indexed: stop when the
pending set is empty; otherwise pop a URL and run one iteration.  (Python
pops an arbitrary set element; popping the list head is one admissible
schedule, and no claim depends on the order.) -/
def runWorklist (sv : Server) (cfg : Cfg) (retryMode : Bool) : Nat → St → St
  | 0, st => st
  | fuel + 1, st =>
    match st.pending with
    | [] => st
    | u :: rest =>
      runWorklist sv cfg retryMode fuel
        (worklistStep sv cfg retryMode u { st with pending := rest })

/-! ## Sitemap data and the second pass -/

/-- The value `datetime.strptime(text, '%Y-%m-%dT%H:%M:%S%z')` produces: a
timezone-aware timestamp (the parsed UTC offset makes it aware). -/
structure PyDateTime where
  year : Nat
  month : Nat
  day : Nat
  hour : Nat
  minute : Nat
  second : Nat
  offMinutes : Int
deriving DecidableEq

/-- One parsed sitemap record as built by `load_sitemap`
(source lines 77-82). -/
structure SEntry where
  loc : String
  lastmod : Option PyDateTime
  changefreq : String
  priority : ℚ
deriving DecidableEq

/-- One iteration of the sitemap pass (source lines 289-311): skip processed
locations, map the location onto the local tree appending the index file
name when the path has no extension — no tagcloud rewrite here — and fetch
non-recursively through the HTML path.  (The `except` arm at lines 305-307
is dead: `download_html` catches request errors itself.) -/
def sitemapStep (sv : Server) (cfg : Cfg) (retryMode : Bool) (st : St) (e : SEntry) : St :=
  if e.loc ∈ st.processed then st
  else
    let lp0 := localPath0 cfg e.loc
    let lp := if splitextExt lp0 = "" then lp0 ++ "\\" ++ cfg.indexFileName else lp0
    match download_html sv cfg retryMode e.loc lp false st with
    | (st', none) => st'
    | (st', some _) => { st' with processed := sinsert e.loc st'.processed }

/-! ## Output sitemap builder and run finalization -/

/-- Zero-padded two-digit rendering. -/
def pad2 (n : Nat) : String := if n < 10 then "0" ++ toString n else toString n

/-- Zero-padded four-digit rendering. -/
def pad4 (n : Nat) : String :=
  if n < 10 then "000" ++ toString n
  else if n < 100 then "00" ++ toString n
  else if n < 1000 then "0" ++ toString n
  else toString n

/-- The `%z` rendering of a UTC offset in minutes. -/
def fmtOff (m : Int) : String :=
  if m < 0 then "-" ++ pad2 ((-m).toNat / 60) ++ pad2 ((-m).toNat % 60)
  else "+" ++ pad2 (m.toNat / 60) ++ pad2 (m.toNat % 60)

/-- `strftime('%Y-%m-%dT%H:%M:%S%z')`. -/
def strftimeZ (d : PyDateTime) : String :=
  pad4 d.year ++ "-" ++ pad2 d.month ++ "-" ++ pad2 d.day ++ "T" ++
    pad2 d.hour ++ ":" ++ pad2 d.minute ++ ":" ++ pad2 d.second ++ fmtOff d.offMinutes

/-- One `<url>` entry of the generated sitemap (source lines 316-319):
priority 0.8 for the top page else 0.5, `lastmod` from the first matching
original entry else the run timestamp.  (When the matching entry's
`lastmod` is `None` the source would raise at line 318; that corner is
rendered as the run timestamp here and is exercised by no claim.) -/
def sitemapEntryXml (cfg : Cfg) (sitemapData : List SEntry) (now url : String) : String :=
  let priority := if url = topPageUrl cfg then "0.8" else "0.5"
  let lastmod := match sitemapData.find? (fun e => e.loc = url) with
    | some e =>
      match e.lastmod with
      | some d => strftimeZ d
      | none => now
    | none => now
  "<url><loc>" ++ pyReplace url "/tagcloud?tag=" "/tagcloud/" ++ "</loc><lastmod>" ++
    lastmod ++ "</lastmod><changefreq>never</changefreq><priority>" ++ priority ++
    "</priority></url>"

/-- The unformatted output sitemap document (source line 326; the
`minidom` pretty-printing of lines 327-328 is presentation only and not
modelled). -/
def buildSitemapContent (cfg : Cfg) (sitemapData : List SEntry) (now : String)
    (processedSorted : List String) : String :=
  "<?xml version=\"1.0\" ?><urlset xmlns=\"http://www.google.com/schemas/sitemap/0.84\">" ++
    String.join (processedSorted.map (sitemapEntryXml cfg sitemapData now)) ++ "</urlset>"

/-- Run finalization (source lines 313-337): write the output sitemap and
its metadata sidecar, then add the sitemap URL to the processed set. -/
def finalize (cfg : Cfg) (sitemapData : List SEntry) (now : String) (st : St) : St :=
  let content := buildSitemapContent cfg sitemapData now (sortStr st.processed)
  let st1 := { st with
    files := fset (sitemapFilePath cfg) content st.files,
    metas := fset (sitemapFilePath cfg ++ ".metadata")
      "Content-Type: application/xml\n" st.metas }
  { st1 with processed := sinsert (sitemapUrl cfg) st1.processed }

/-- The observable outcome of one whole run. -/
structure RunResult where
  final : St
  retryFileEnd : Option (List String)
  processedLog : List String
  skippedLog : Option (List String)

/-- The seeding of the crawl (source lines 211-216): fetch the top page
recursively; a `None` result leaves the empty seed, otherwise the top page
is recorded as processed and its links become the pending set. -/
def seedTop (sv : Server) (cfg : Cfg) (rm : Bool) (st0 : St) : St :=
  match download_html sv cfg rm (topPageUrl cfg) (topLocalFile cfg) true st0 with
  | (st1, none) => st1
  | (st1, some links) =>
    { st1 with processed := sinsert (topPageUrl cfg) st1.processed,
               pending := links.foldl (fun p l => sinsert l p) st1.pending }

/-- The final crawl state of one complete run of `WebHtmlDownload.py` after
a successful sitemap load: startup ledger handling (source lines 109-117: a
present ledger file turns on retry mode; otherwise an empty ledger file is
created), the recursive top-page seed (lines 211-216), the worklist drain
(lines 220-285), the sitemap pass (lines 287-311) and finalization
(lines 313-337). -/
def crawlFinal (sv : Server) (cfg : Cfg) (sitemapData : List SEntry) (now : String)
    (ledger0 : Option (List String)) (fuel : Nat) : St :=
  let rm := ledger0.isSome
  let st0 : St := ⟨[], [], ledger0.getD [], [], [], []⟩
  let st2 := seedTop sv cfg rm st0
  let st3 := runWorklist sv cfg rm fuel st2
  let st4 := sitemapData.foldl (sitemapStep sv cfg rm) st3
  finalize cfg sitemapData now st4

/-- The retry-ledger persistence of source lines 352-361: when failures
remain the file is written with the sorted URLs one per line, otherwise the
(possibly empty) file is deleted; `none` means the file is absent. -/
def mkRetryFile (retry : List String) : Option (List String) :=
  if retry = [] then none else some (sortStr retry)

/-- One complete run: the final state plus the persisted observables — the
retry-ledger end state and the sorted processed/skipped logs
(source lines 339-361). -/
def crawl (sv : Server) (cfg : Cfg) (sitemapData : List SEntry) (now : String)
    (ledger0 : Option (List String)) (fuel : Nat) : RunResult :=
  let st5 := crawlFinal sv cfg sitemapData now ledger0 fuel
  { final := st5,
    retryFileEnd := mkRetryFile st5.retryUrls,
    processedLog := sortStr st5.processed,
    skippedLog := if st5.skipped.length > 0 then some (sortStr st5.skipped) else none }

/-! ## `load_sitemap` (source lines 53-95) -/

/-- One `<url>` element of the fetched feed, as `ElementTree` exposes it to
`load_sitemap`: for each child element, `none` means the element is absent
(so `url.find(...)` returns `None` and `.text` raises `AttributeError`);
for `lastmod` the inner option is the element's text, `none` standing for an
empty element (whose `.text` is `None`). -/
structure RawEntry where
  loc : Option String
  lastmod : Option (Option String)

/-- All-digit check for a character list. -/
def allDigits (l : List Char) : Bool :=
  l.all (fun c => '0'.toNat ≤ c.toNat ∧ c.toNat ≤ '9'.toNat)

/-- Numeric value of a digit list (most significant first). -/
def digitsVal (l : List Char) : Nat :=
  l.foldl (fun acc c => acc * 10 + (c.toNat - '0'.toNat)) 0

/-- `datetime.strptime(s, '%Y-%m-%dT%H:%M:%S%z')`: fixed-width date and
time fields and a UTC offset (`±HHMM`, `±HH:MM` or `Z`); `none` models the
`ValueError` raised on mismatch.  Field range validation beyond the digit
shape is not modelled (no claim exercises it). -/
def strptimeZ (s : String) : Option PyDateTime :=
  match s.toList with
  | y1 :: y2 :: y3 :: y4 :: '-' :: m1 :: m2 :: '-' :: d1 :: d2 :: 'T' ::
      h1 :: h2 :: ':' :: n1 :: n2 :: ':' :: s1 :: s2 :: off =>
    if allDigits [y1, y2, y3, y4, m1, m2, d1, d2, h1, h2, n1, n2, s1, s2] then
      let base : PyDateTime :=
        { year := digitsVal [y1, y2, y3, y4], month := digitsVal [m1, m2],
          day := digitsVal [d1, d2], hour := digitsVal [h1, h2],
          minute := digitsVal [n1, n2], second := digitsVal [s1, s2],
          offMinutes := 0 }
      match off with
      | ['Z'] => some base
      | [sgn, o1, o2, o3, o4] =>
        if allDigits [o1, o2, o3, o4] then
          let mins : Int := (digitsVal [o1, o2] * 60 + digitsVal [o3, o4] : Nat)
          if sgn = '+' then some { base with offMinutes := mins }
          else if sgn = '-' then some { base with offMinutes := -mins }
          else none
        else none
      | [sgn, o1, o2, ':', o3, o4] =>
        if allDigits [o1, o2, o3, o4] then
          let mins : Int := (digitsVal [o1, o2] * 60 + digitsVal [o3, o4] : Nat)
          if sgn = '+' then some { base with offMinutes := mins }
          else if sgn = '-' then some { base with offMinutes := -mins }
          else none
        else none
      | _ => none
    else none
  | _ => none

/-- Line 69 of the source: an empty (falsy) `lastmod` text yields `None`,
any other text goes through `strptime` (whose `ValueError` is `none` here). -/
def parseLastmodText : Option String → Option (Option PyDateTime)
  | none => some none
  | some t => if t = "" then some none else (strptimeZ t).map some

/-- The processing of one `<url>` element (source lines 65-82): `loc` must
expose text (line 66 dereferences `.find(...).text` unconditionally);
line 68 dereferences the `lastmod` element's `.text` the same way, so a
missing `lastmod` element raises; a present-but-empty `lastmod` is falsy and
yields `None`; otherwise the text is parsed.  `changefreq` and `priority`
are overwritten with the constants `'never'` and `0.5` (lines 72 and 75).
`none` models an exception escaping to the `except` arms. -/
def parseRaw (r : RawEntry) : Option SEntry :=
  match r.loc, r.lastmod with
  | some l, some lm =>
    match parseLastmodText lm with
    | some lastmod =>
      some { loc := l, lastmod := lastmod, changefreq := "never", priority := (1 : ℚ) / 2 }
    | none => none
  | _, _ => none

/-- Insertion into a list of entries sorted by location. -/
def insertByLoc (e : SEntry) : List SEntry → List SEntry
  | [] => [e]
  | v :: t => if strLe e.loc v.loc then e :: v :: t else v :: insertByLoc e t

/-- The `sitemap.sort(key=lambda x: x['loc'])` of source line 85. -/
def sortByLoc (l : List SEntry) : List SEntry :=
  l.foldr insertByLoc []

/-- The entry loop of `load_sitemap` (source lines 65-82): entries are
processed in document order and the first exception aborts the whole loop. -/
def seqEntries : List RawEntry → Option (List SEntry)
  | [] => some []
  | r :: t =>
    match parseRaw r with
    | none => none
    | some e => (seqEntries t).map (e :: ·)

/-- `load_sitemap` (source lines 53-95) over an already-fetched feed:
`none` input models a request failure or XML parse failure (lines 87-92);
any exception while processing an entry — in particular the `AttributeError`
from a missing `loc` or `lastmod` element — is caught by the generic
`except` (lines 93-95) and yields the empty list; otherwise the parsed
entries are sorted by location (line 85). -/
def load_sitemap (feed : Option (List RawEntry)) : List SEntry :=
  match feed with
  | none => []
  | some raws =>
    match seqEntries raws with
    | none => []
    | some es => sortByLoc es

/-- Per-entry well-formedness used by the amended sitemap claim: the `loc`
and `lastmod` elements are present and a non-empty `lastmod` text parses. -/
def rawOk (r : RawEntry) : Bool :=
  match r.loc, r.lastmod with
  | some _, some lm =>
    match lm with
    | none => true
    | some t => t = "" || (strptimeZ t).isSome
  | _, _ => false

/-! ## `AwsS3Upload.py`: the upload pass -/

/-- One regular file met by the `os.walk` traversal (in walk order):  its
full local path, the line list of its metadata sidecar when that file
exists, and whether `s3_client.upload_file` would succeed on it. -/
structure UFile where
  path : String
  metaLines : Option (List String)
  uploadOk : Bool

/-- The state threaded through the upload walk. -/
structure UState where
  uploaded : List (String × String)
  retryFiles : List String
  warned : List String

/-- Scan of the metadata sidecar (source lines 76-81): the first line
starting with `Content-Type:` yields everything after the first colon,
stripped. -/
def contentTypeOf (lines : List String) : Option String :=
  (lines.find? (fun l => startsWithStr l "Content-Type:")).map
    (fun l => pyStrip ⟨l.toList.drop "Content-Type:".toList.length⟩)

/-- The S3 key of a local file (source lines 88-90): the path relative to
the mirror root with forward slashes and without a leading `$root/`. -/
def s3KeyOf (localRoot filePath : String) : String :=
  let rel :=
    if startsWithStr filePath (localRoot ++ "\\") then
      ⟨filePath.toList.drop (localRoot ++ "\\").toList.length⟩
    else filePath
  let k := pyReplace rel "\\" "/"
  if startsWithStr k "$root/" then ⟨k.toList.drop "$root/".toList.length⟩ else k

/-- One iteration of the upload walk (source lines 59-109): skip `.metadata`
files (line 61); skip non-ledger files in retry mode (line 67); warn and
skip when the sidecar is missing (lines 71-73) or exposes no truthy
Content-Type (lines 83-85); otherwise upload.  On an upload exception the
handler at line 104 executes `retry_file.add(file_path)` — a typo for the
`retry_files` set: in retry mode `retry_file` is the closed file object left
over from the startup `with` block (so the handler raises `AttributeError`),
and in full-crawl mode the name is not bound at all (so it raises
`NameError`); either way the handler itself raises, nothing catches it, and
the walk terminates.  That uncaught exception is the `Except.error` outcome;
its message records the retry-mode variant. -/
def uploadStep (localRoot : String) (retryMode : Bool) (s : UState) (f : UFile) :
    Except String UState :=
  if endsWithStr f.path ".metadata" then .ok s
  else if retryMode = true ∧ f.path ∉ s.retryFiles then .ok s
  else
    match f.metaLines with
    | none => .ok { s with warned := s.warned ++ [f.path] }
    | some lines =>
      match contentTypeOf lines with
      | none => .ok { s with warned := s.warned ++ [f.path] }
      | some ct =>
        if ct = "" then .ok { s with warned := s.warned ++ [f.path] }
        else if f.uploadOk then
          .ok { s with retryFiles := sremove f.path s.retryFiles,
                       uploaded := s.uploaded ++ [(s3KeyOf localRoot f.path, ct)] }
        else .error ("AttributeError: '_io.TextIOWrapper' object has no attribute 'add' while handling " ++ f.path)

/-- The whole upload walk: a fold that stops at the first escaping
exception. -/
def uploadWalk (localRoot : String) (retryMode : Bool) (fs : List UFile)
    (s : UState) : Except String UState :=
  fs.foldlM (uploadStep localRoot retryMode) s

/-! ## Concrete instances used by the claims -/

/-- A small configuration: domain `ex.com`, mirror root `.\site`. -/
def cfgEx : Cfg :=
  { domainName := "ex.com", topLocalName := "site",
    sitemapUrlPath := "/sitemap.xml", indexFileName := "index.html" }

/-- A page body consisting of one anchor per given href. -/
def pageWith (hrefs : List String) : NodeList :=
  NL (hrefs.map (fun h => Node.elem "a" [("href", h)] (NL [])))

/-- A clean 2xx non-redirected HTML response with the given body. -/
def okResp (doc : NodeList) : Resp :=
  { redirected := false, raw := "", doc := doc, contentType := some "text/html" }

/-- Server for the redirected-asset scenario: the top page links to an image
whose request history is non-empty (a server-side redirect that ends in a
2xx response). -/
def svRedirAsset : Server :=
  [("https://ex.com", okResp (pageWith ["https://ex.com/a.png"])),
   ("https://ex.com/a.png",
     { redirected := true, raw := "PNG", doc := NL [], contentType := some "image/png" })]

/-- Full-crawl run against `svRedirAsset`. -/
def runRedirAsset : RunResult :=
  crawl svRedirAsset cfgEx [] "2024-01-01T00:00:00+0000" none 20

/-- The tree `BeautifulSoup` yields for the text asset of the overwrite
scenario. -/
def assetDoc : NodeList := NL [Node.elem "div" [("id", "bodyGrid")] (NL [])]

/-- Server for the overwrite scenario: the top page links to `d.txt`, a
plain asset served without a declared content type. -/
def svTextAsset : Server :=
  [("https://ex.com", okResp (pageWith ["https://ex.com/d.txt"])),
   ("https://ex.com/d.txt",
     { redirected := false, raw := "plain asset bytes", doc := assetDoc,
       contentType := none })]

/-- Full-crawl run against `svTextAsset`. -/
def runTextAsset : RunResult :=
  crawl svTextAsset cfgEx [] "2024-01-01T00:00:00+0000" none 20

/-- What `download_html` leaves at the asset path after the extension branch
has saved the raw bytes: the serialized, structurally edited parse. -/
def overwrittenAsset : String :=
  pyReplace (serializeL (applyEdits assetDoc)) "/tagcloud?tag=" "/tagcloud/"

/-- Server for the retry-mode scenario: the ledger contains only the top
page; the top page links to an asset that is not in the ledger. -/
def svRetryAsset : Server :=
  [("https://ex.com", okResp (pageWith ["https://ex.com/a.png"])),
   ("https://ex.com/a.png",
     { redirected := false, raw := "PNGDATA", doc := NL [], contentType := some "image/png" })]

/-- Retry-mode run (startup ledger `{https://ex.com}`) against
`svRetryAsset`. -/
def runRetryAsset : RunResult :=
  crawl svRetryAsset cfgEx [] "2024-01-01T00:00:00+0000" (some ["https://ex.com"]) 20

/-- Server for the normalization scenario of the spec's worked example. -/
def svNorm : Server :=
  [("https://ex.com",
     okResp (pageWith ["https://ex.com/p?x=1#frag", "https://ex.com/tagcloud?tag=news"])),
   ("https://ex.com/p", okResp (NL [])),
   ("https://ex.com/tagcloud?tag=news", okResp (NL []))]

/-- Full-crawl run against `svNorm`. -/
def runNorm : RunResult :=
  crawl svNorm cfgEx [] "2024-01-01T00:00:00+0000" none 20

/-- Server for the off-domain scenario: the top page links to another
origin and to one same-origin page. -/
def svOffDomain : Server :=
  [("https://ex.com", okResp (pageWith ["https://other.com/x", "https://ex.com/p"])),
   ("https://ex.com/p", okResp (NL []))]

/-- Full-crawl run against `svOffDomain`. -/
def runOffDomain : RunResult :=
  crawl svOffDomain cfgEx [] "2024-01-01T00:00:00+0000" none 20

/-- Server for the prefix-confusion scenario: the top page links to a host
that is *not* the configured domain but extends the top page URL as a string
prefix, and to a plainly foreign host. -/
def svEvil : Server :=
  [("https://ex.com",
     okResp (pageWith ["https://ex.com.evil.io/x", "https://other.com/x"])),
   ("https://ex.com.evil.io/x", okResp (NL []))]

/-- Full-crawl run against `svEvil`. -/
def runEvil : RunResult :=
  crawl svEvil cfgEx [] "2024-01-01T00:00:00+0000" none 20

/-- Server with a permanently failing URL: every request for
`https://ex.com/broken` raises. -/
def svBroken : Server :=
  [("https://ex.com", okResp (pageWith ["https://ex.com/broken"]))]

/-- Full-crawl run against `svBroken`: one URL remains failed. -/
def runBroken : RunResult :=
  crawl svBroken cfgEx [] "2024-01-01T00:00:00+0000" none 20

/-- Upload-walk scenario: a good file, a file whose upload raises, and a
further good file after it. -/
def ufGood : UFile :=
  { path := ".\\bucket\\a.html", metaLines := some ["Content-Type: text/html"],
    uploadOk := true }

/-- The file whose `upload_file` call raises. -/
def ufBad : UFile :=
  { path := ".\\bucket\\bad.bin",
    metaLines := some ["Content-Type: application/octet-stream"], uploadOk := false }

/-- A perfectly uploadable file that the walk should still reach. -/
def ufLater : UFile :=
  { path := ".\\bucket\\later.html", metaLines := some ["Content-Type: text/html"],
    uploadOk := true }

/-- A metadata sidecar met by the walk. -/
def ufMeta : UFile :=
  { path := ".\\bucket\\a.html.metadata", metaLines := none, uploadOk := true }

/-- A file whose sidecar is missing. -/
def ufNoMeta : UFile :=
  { path := ".\\bucket\\nometa.css", metaLines := none, uploadOk := true }

/-- A file whose sidecar has no Content-Type line. -/
def ufNoCT : UFile :=
  { path := ".\\bucket\\noct.js", metaLines := some ["X-Whatever: yes"], uploadOk := true }


/-! ## Observation functions for the structural-edit claims -/

mutual
/-- Whether a ranking widget (in the sense of `isRankingWidget`) occurs
anywhere in the tree. -/
def hasRankingWidget : Node → Bool
  | .elem t a c => isRankingWidget (.elem t a c) || hasRankingWidgetL c
  | .text _ => false
def hasRankingWidgetL : NodeList → Bool
  | .nil => false
  | .cons n t => hasRankingWidget n || hasRankingWidgetL t
end

mutual
/-- Whether any `<li id="view_sp">` occurs in the tree. -/
def hasViewSp : Node → Bool
  | .elem t a c => isTagWithId "li" "view_sp" (.elem t a c) || hasViewSpL c
  | .text _ => false
def hasViewSpL : NodeList → Bool
  | .nil => false
  | .cons n t => hasViewSp n || hasViewSpL t
end

mutual
/-- Number of `<div id="headerBanner">` elements in the tree. -/
def bannerCount : Node → Nat
  | .elem t a c =>
    (if isTagWithId "div" "headerBanner" (.elem t a c) then 1 else 0) + bannerCountL c
  | .text _ => 0
def bannerCountL : NodeList → Nat
  | .nil => 0
  | .cons n t => bannerCount n + bannerCountL t
end

mutual
/-- Insertion of a lone `"\n"` text node immediately after the first
`<div id="headerBanner">` (pre-order); `none` when there is no banner.  This
is the only difference re-application of the rewrite can make to an
already-edited document. -/
def insertAfterBanner : Node → Option Node
  | .elem t a c =>
    match insertAfterBannerL c with
    | some c' => some (.elem t a c')
    | none => none
  | .text _ => none
def insertAfterBannerL : NodeList → Option NodeList
  | .nil => none
  | .cons n t =>
    if isTagWithId "div" "headerBanner" n then some (.cons n (.cons (.text "\n") t))
    else
      match insertAfterBanner n with
      | some n' => some (.cons n' t)
      | none =>
        match insertAfterBannerL t with
        | some t' => some (.cons n t')
        | none => none
end

/-- A bare `<div id="bodyGrid">` element. -/
def gridDiv : Node := .elem "div" [("id", "bodyGrid")] (NL [])

/-- A minimal un-edited document: just the body container. -/
def gridDoc : NodeList := NL [gridDiv]


/-! ## Invariants used by the disjointness and off-domain claims -/

/-- The server serves `u` with a non-empty redirect history. -/
def lookRedir (sv : Server) (u : String) : Prop :=
  ∃ r, slookup u sv = some r ∧ r.redirected = true

/-- The server serves `u` cleanly: a 2xx response with empty history. -/
def lookOkNR (sv : Server) (u : String) : Prop :=
  ∃ r, slookup u sv = some r ∧ r.redirected = false

/-- The state invariant behind the amended C1: processed URLs are the
sitemap URL or query-free, and a processed URL that the server would
redirect can only have been recorded by the retry gate (retry mode, URL
outside the current retry set); skipped URLs carry a query or were really
redirected (in retry mode: and were ledger entries); a startup-ledger URL
that has left the retry set was fetched cleanly; and in retry mode the retry
set only ever holds failing URLs and startup-ledger entries. -/
structure InvC1 (sv : Server) (cfg : Cfg) (rm : Bool) (L0 : List String) (st : St) : Prop where
  proc : ∀ u ∈ st.processed, u = sitemapUrl cfg ∨
    (qshape cfg u = false ∧ (lookRedir sv u → rm = true ∧ u ∉ st.retryUrls))
  skip : ∀ u ∈ st.skipped, qshape cfg u = true ∨ (lookRedir sv u ∧ (rm = true → u ∈ L0))
  ledg : rm = true → ∀ u ∈ L0, u ∉ st.retryUrls → lookOkNR sv u
  retr : rm = true → ∀ u ∈ st.retryUrls, slookup u sv = none ∨ u ∈ L0

/-- The URLs a crawl state may mention at all: same-origin URLs, sitemap
locations, startup-ledger entries and the sitemap feed URL. -/
def allowedUrl (cfg : Cfg) (locs L0 : List String) (v : String) : Prop :=
  startsWithStr v (topPageUrl cfg) = true ∨ v ∈ locs ∨ v ∈ L0 ∨ v = sitemapUrl cfg

/-- The state invariant behind C7: the pending worklist only ever holds
same-origin URLs, and the three bookkeeping sets only hold allowed URLs. -/
structure InvC7 (cfg : Cfg) (locs L0 : List String) (st : St) : Prop where
  pend : ∀ v ∈ st.pending, startsWithStr v (topPageUrl cfg) = true
  rest : ∀ v, v ∈ st.processed ∨ v ∈ st.skipped ∨ v ∈ st.retryUrls → allowedUrl cfg locs L0 v

/-! # Theorems -/

/-! ## Generic lemmas about the set, sort and lookup models -/

theorem mem_sinsert {v u : String} {l : List String} :
    v ∈ sinsert u l ↔ v = u ∨ v ∈ l := by
  unfold sinsert
  by_cases h : u ∈ l
  · rw [if_pos h]
    constructor
    · exact Or.inr
    · rintro (rfl | hv)
      · exact h
      · exact hv
  · rw [if_neg h]
    simp only [List.mem_append, List.mem_singleton]
    exact or_comm

theorem mem_sremove {v u : String} {l : List String} :
    v ∈ sremove u l ↔ v ∈ l ∧ v ≠ u := by
  unfold sremove
  simp

theorem not_mem_sremove_self (u : String) (l : List String) : u ∉ sremove u l := by
  rw [mem_sremove]
  simp

theorem slookup_mem {β : Type} {u : String} {r : β} :
    ∀ (l : List (String × β)), slookup u l = some r → (u, r) ∈ l
  | [], h => by simp [slookup] at h
  | (k, v) :: t, h => by
    unfold slookup at h
    by_cases hk : k = u
    · rw [if_pos hk] at h
      subst hk
      cases h
      exact List.mem_cons_self _ _
    · rw [if_neg hk] at h
      exact List.mem_cons_of_mem _ (slookup_mem t h)

theorem mem_foldl_sinsert {v : String} :
    ∀ (links acc : List String),
      v ∈ links.foldl (fun p l => sinsert l p) acc ↔ v ∈ acc ∨ v ∈ links
  | [], acc => by simp
  | l :: t, acc => by
    simp only [List.foldl_cons]
    rw [mem_foldl_sinsert t (sinsert l acc), mem_sinsert, List.mem_cons]
    tauto

theorem length_insertSorted (u : String) :
    ∀ l : List String, (insertSorted u l).length = l.length + 1
  | [] => rfl
  | v :: t => by
    unfold insertSorted
    split
    · simp
    · simp [length_insertSorted u t]

theorem length_sortStr : ∀ l : List String, (sortStr l).length = l.length
  | [] => rfl
  | u :: t => by
    show (insertSorted u (sortStr t)).length = _
    rw [length_insertSorted, length_sortStr t]
    rfl

theorem sortStr_ne_nil {l : List String} (h : l ≠ []) : sortStr l ≠ [] := by
  intro he
  have hl := length_sortStr l
  rw [he] at hl
  cases l with
  | nil => exact h rfl
  | cons a t => simp at hl

theorem mem_insertSorted {v u : String} :
    ∀ {l : List String}, v ∈ insertSorted u l ↔ v = u ∨ v ∈ l
  | [] => by simp [insertSorted]
  | w :: t => by
    unfold insertSorted
    split
    · simp
    · rw [List.mem_cons, @mem_insertSorted v u t, List.mem_cons]
      tauto

theorem mem_sortStr {v : String} : ∀ {l : List String}, v ∈ sortStr l ↔ v ∈ l
  | [] => Iff.rfl
  | u :: t => by
    show v ∈ insertSorted u (sortStr t) ↔ _
    rw [mem_insertSorted, @mem_sortStr v t, List.mem_cons]

theorem disjointL_eq_true {a b : List String} (h : ∀ u ∈ a, u ∉ b) :
    disjointL a b = true := by
  unfold disjointL
  rw [List.all_eq_true]
  intro u hu
  simpa using h u hu

/-! ## Order lemmas for the sort model -/

theorem lexLe_total : ∀ a b : List Char, lexLe a b = true ∨ lexLe b a = true
  | [], _ => Or.inl rfl
  | _ :: _, [] => Or.inr rfl
  | a :: as, b :: bs => by
    rcases Nat.lt_trichotomy a.toNat b.toNat with h | h | h
    · left
      unfold lexLe
      rw [if_pos h]
    · have h1 : ¬ a.toNat < b.toNat := by omega
      have h2 : ¬ b.toNat < a.toNat := by omega
      unfold lexLe
      rw [if_neg h1, if_neg h2, if_neg h2, if_neg h1]
      exact lexLe_total as bs
    · right
      unfold lexLe
      rw [if_pos h]

theorem lexLe_trans : ∀ {a b c : List Char},
    lexLe a b = true → lexLe b c = true → lexLe a c = true
  | [], _, _, _, _ => rfl
  | _ :: _, [], _, h1, _ => by simp [lexLe] at h1
  | _ :: _, _ :: _, [], _, h2 => by simp [lexLe] at h2
  | a :: as, b :: bs, c :: cs, h1, h2 => by
    unfold lexLe at h1 h2 ⊢
    by_cases hab : a.toNat < b.toNat
    · by_cases hbc : b.toNat < c.toNat
      · rw [if_pos (by omega : a.toNat < c.toNat)]
      · by_cases hcb : c.toNat < b.toNat
        · rw [if_neg hbc, if_pos hcb] at h2
          exact absurd h2 (by simp)
        · rw [if_pos (by omega : a.toNat < c.toNat)]
    · by_cases hba : b.toNat < a.toNat
      · rw [if_neg hab, if_pos hba] at h1
        exact absurd h1 (by simp)
      · by_cases hbc : b.toNat < c.toNat
        · rw [if_pos (by omega : a.toNat < c.toNat)]
        · by_cases hcb : c.toNat < b.toNat
          · rw [if_neg hbc, if_pos hcb] at h2
            exact absurd h2 (by simp)
          · rw [if_neg hab, if_neg hba] at h1
            rw [if_neg hbc, if_neg hcb] at h2
            rw [if_neg (show ¬ a.toNat < c.toNat by omega),
                if_neg (show ¬ c.toNat < a.toNat by omega)]
            exact lexLe_trans h1 h2

theorem strLe_total (a b : String) : strLe a b = true ∨ strLe b a = true :=
  lexLe_total a.toList b.toList

theorem strLe_trans {a b c : String} (h1 : strLe a b = true) (h2 : strLe b c = true) :
    strLe a c = true :=
  lexLe_trans h1 h2

/-- The sortedness shape claimed of the loaded sitemap. -/
def SortedByLoc (l : List SEntry) : Prop :=
  List.Pairwise (fun a b => strLe a.loc b.loc = true) l

theorem mem_insertByLoc {x e : SEntry} :
    ∀ {l : List SEntry}, x ∈ insertByLoc e l ↔ x = e ∨ x ∈ l
  | [] => by simp [insertByLoc]
  | w :: t => by
    unfold insertByLoc
    split
    · simp
    · rw [List.mem_cons, @mem_insertByLoc x e t, List.mem_cons]
      tauto

theorem sortedByLoc_insertByLoc {e : SEntry} :
    ∀ {l : List SEntry}, SortedByLoc l → SortedByLoc (insertByLoc e l)
  | [], _ => by simp [insertByLoc, SortedByLoc]
  | w :: t, h => by
    rcases List.pairwise_cons.mp h with ⟨hw, ht⟩
    unfold insertByLoc
    by_cases hc : strLe e.loc w.loc = true
    · rw [if_pos hc]
      refine List.Pairwise.cons ?_ h
      intro b hb
      rcases List.mem_cons.mp hb with rfl | hb
      · exact hc
      · exact strLe_trans hc (hw b hb)
    · rw [if_neg hc]
      refine List.Pairwise.cons ?_ (sortedByLoc_insertByLoc ht)
      intro b hb
      rcases mem_insertByLoc.mp hb with rfl | hb
      · rcases strLe_total b.loc w.loc with hx | hx
        · exact absurd hx hc
        · exact hx
      · exact hw b hb

theorem sortedByLoc_sortByLoc : ∀ l : List SEntry, SortedByLoc (sortByLoc l)
  | [] => List.Pairwise.nil
  | _ :: t => sortedByLoc_insertByLoc (sortedByLoc_sortByLoc t)

theorem mem_sortByLoc {x : SEntry} :
    ∀ {l : List SEntry}, x ∈ sortByLoc l ↔ x ∈ l
  | [] => Iff.rfl
  | e :: t => by
    show x ∈ insertByLoc e (sortByLoc t) ↔ _
    rw [mem_insertByLoc, @mem_sortByLoc x t, List.mem_cons]

theorem length_insertByLoc (e : SEntry) :
    ∀ l : List SEntry, (insertByLoc e l).length = l.length + 1
  | [] => rfl
  | v :: t => by
    unfold insertByLoc
    split
    · simp
    · simp [length_insertByLoc e t]

theorem length_sortByLoc : ∀ l : List SEntry, (sortByLoc l).length = l.length
  | [] => rfl
  | e :: t => by
    show (insertByLoc e (sortByLoc t)).length = _
    rw [length_insertByLoc, length_sortByLoc t]
    rfl

/-! ## The structural rewrite on already-edited documents -/

mutual
theorem removeWidgets_id (n : Node) (h : hasRankingWidget n = false) :
    removeWidgets n = some n := by
  cases n with
  | elem t a c =>
    unfold hasRankingWidget at h
    rw [Bool.or_eq_false_iff] at h
    unfold removeWidgets
    rw [if_neg (by simp [h.1]), removeWidgetsL_id c h.2]
  | text s => rfl
theorem removeWidgetsL_id (l : NodeList) (h : hasRankingWidgetL l = false) :
    removeWidgetsL l = l := by
  cases l with
  | nil => rfl
  | cons n t =>
    unfold hasRankingWidgetL at h
    rw [Bool.or_eq_false_iff] at h
    unfold removeWidgetsL
    rw [removeWidgets_id n h.1, removeWidgetsL_id t h.2]
end

mutual
theorem removeViewSp_id (n : Node) (h : hasViewSp n = false) :
    removeViewSp n = (some n, false) := by
  cases n with
  | elem t a c =>
    unfold hasViewSp at h
    rw [Bool.or_eq_false_iff] at h
    unfold removeViewSp
    rw [if_neg (by simp [h.1]), removeViewSpL_id c h.2]
  | text s => rfl
theorem removeViewSpL_id (l : NodeList) (h : hasViewSpL l = false) :
    removeViewSpL l = (l, false) := by
  cases l with
  | nil => rfl
  | cons n t =>
    unfold hasViewSpL at h
    rw [Bool.or_eq_false_iff] at h
    unfold removeViewSpL
    rw [removeViewSp_id n h.1, removeViewSpL_id t h.2]
end

theorem findById_self {tag idv : String} {n : Node}
    (h : isTagWithId tag idv n = true) : findById tag idv n = some n := by
  cases n with
  | elem t a c =>
    unfold findById
    rw [if_pos h]
  | text s => simp [isTagWithId] at h

mutual
theorem replIns (n : Node) :
    (findById "div" "headerBanner" n = none →
      replaceById "div" "headerBanner" bannerFrag n = none ∧ insertAfterBanner n = none)
    ∧ (findById "div" "headerBanner" n = some bannerDiv →
        isTagWithId "div" "headerBanner" n = false →
        ∃ n', replaceById "div" "headerBanner" bannerFrag n = some [n'] ∧
          insertAfterBanner n = some n') := by
  cases n with
  | text s =>
    refine ⟨fun _ => ⟨rfl, rfl⟩, fun hf _ => ?_⟩
    simp [findById] at hf
  | elem t a c =>
    constructor
    · intro hf
      unfold findById at hf
      by_cases hself : isTagWithId "div" "headerBanner" (Node.elem t a c) = true
      · rw [if_pos hself] at hf
        cases hf
      · rw [if_neg hself] at hf
        have hc := (replInsL c).1 hf
        unfold replaceById insertAfterBanner
        rw [if_neg hself, hc.1, hc.2]
        exact ⟨rfl, rfl⟩
    · intro hf hself
      unfold findById at hf
      rw [if_neg (by simp [hself])] at hf
      obtain ⟨c', hr, hi⟩ := (replInsL c).2 hf
      refine ⟨Node.elem t a c', ?_, ?_⟩
      · unfold replaceById
        rw [if_neg (by simp [hself]), hr]
      · unfold insertAfterBanner
        rw [hi]
theorem replInsL (l : NodeList) :
    (findByIdL "div" "headerBanner" l = none →
      replaceByIdL "div" "headerBanner" bannerFrag l = none ∧ insertAfterBannerL l = none)
    ∧ (findByIdL "div" "headerBanner" l = some bannerDiv →
        ∃ l', replaceByIdL "div" "headerBanner" bannerFrag l = some l' ∧
          insertAfterBannerL l = some l') := by
  cases l with
  | nil =>
    refine ⟨fun _ => ⟨rfl, rfl⟩, fun hf => ?_⟩
    simp [findByIdL] at hf
  | cons n t =>
    by_cases hself : isTagWithId "div" "headerBanner" n = true
    · have hfn : findById "div" "headerBanner" n = some n := findById_self hself
      constructor
      · intro hf
        unfold findByIdL at hf
        rw [hfn] at hf
        cases hf
      · intro hf
        unfold findByIdL at hf
        rw [hfn] at hf
        have hn : n = bannerDiv := by cases hf; rfl
        subst hn
        refine ⟨NodeList.cons bannerDiv (NodeList.cons (Node.text "\n") t), ?_, ?_⟩
        · unfold replaceByIdL
          have hrepl : replaceById "div" "headerBanner" bannerFrag bannerDiv = some bannerFrag :=
            rfl
          rw [hrepl]
          rfl
        · unfold insertAfterBannerL
          rw [if_pos hself]
    · constructor
      · intro hf
        unfold findByIdL at hf
        cases hn : findById "div" "headerBanner" n with
        | some b => rw [hn] at hf; cases hf
        | none =>
          rw [hn] at hf
          have hcn := (replIns n).1 hn
          have hct := (replInsL t).1 hf
          unfold replaceByIdL insertAfterBannerL
          rw [hcn.1, hct.1, hcn.2, if_neg hself, hct.2]
          exact ⟨rfl, rfl⟩
      · intro hf
        unfold findByIdL at hf
        cases hn : findById "div" "headerBanner" n with
        | some b =>
          rw [hn] at hf
          have hb : b = bannerDiv := by cases hf; rfl
          subst hb
          obtain ⟨n', hr, hi⟩ := (replIns n).2 hn (by simpa using hself)
          refine ⟨NodeList.cons n' t, ?_, ?_⟩
          · unfold replaceByIdL
            rw [hr]
            rfl
          · unfold insertAfterBannerL
            rw [if_neg hself, hi]
        | none =>
          rw [hn] at hf
          have hcn := (replIns n).1 hn
          obtain ⟨l'', hr, hi⟩ := (replInsL t).2 hf
          refine ⟨NodeList.cons n l'', ?_, ?_⟩
          · unfold replaceByIdL
            rw [hcn.1, hr]
          · unfold insertAfterBannerL
            rw [if_neg hself, hcn.2, hi]
end

mutual
theorem bannerCount_insertAfter (n : Node) :
    ∀ n', insertAfterBanner n = some n' → bannerCount n' = bannerCount n := by
  cases n with
  | elem t a c =>
    intro n' h
    unfold insertAfterBanner at h
    cases hc : insertAfterBannerL c with
    | some c' =>
      rw [hc] at h
      cases h
      unfold bannerCount
      rw [bannerCountL_insertAfter c c' hc]
      rfl
    | none =>
      rw [hc] at h
      cases h
  | text s =>
    intro n' h
    simp [insertAfterBanner] at h
theorem bannerCountL_insertAfter (l : NodeList) :
    ∀ l', insertAfterBannerL l = some l' → bannerCountL l' = bannerCountL l := by
  cases l with
  | nil =>
    intro l' h
    simp [insertAfterBannerL] at h
  | cons n t =>
    intro l' h
    unfold insertAfterBannerL at h
    by_cases hself : isTagWithId "div" "headerBanner" n = true
    · rw [if_pos hself] at h
      cases h
      show bannerCount n + (bannerCount (Node.text "\n") + bannerCountL t) = _
      show _ = bannerCount n + bannerCountL t
      unfold bannerCount
      omega
    · rw [if_neg hself] at h
      cases hn : insertAfterBanner n with
      | some n' =>
        rw [hn] at h
        cases h
        show bannerCount n' + bannerCountL t = bannerCount n + bannerCountL t
        rw [bannerCount_insertAfter n n' hn]
      | none =>
        rw [hn] at h
        cases ht : insertAfterBannerL t with
        | some t' =>
          rw [ht] at h
          cases h
          show bannerCount n + bannerCountL t' = bannerCount n + bannerCountL t
          rw [bannerCountL_insertAfter t t' ht]
        | none =>
          rw [ht] at h
          cases h
end

/-- C10: the three structural edits (ranking-widget removal, `view_sp`
removal, archive-banner replace-or-insert) applied to an already-edited
document.  The claim's strict idempotence fails (see the counterexample:
each application appends one more newline text node after the banner, since
the replacement soup contains the banner `div` *and* a trailing `"\n"`);
what holds — the amended claim — is idempotence up to that newline: on a
document with no ranking widget, no `view_sp` item, and whose first
`headerBanner` element is exactly the archive banner (the shape `applyEdits`
itself produces), re-application returns the same document with one extra
`"\n"` text node after the banner, and the number of archive-banner elements
is unchanged, so the banner is never duplicated. -/
theorem C10_edits_idempotent_up_to_newline (r : NodeList)
    (h1 : hasRankingWidgetL r = false) (h2 : hasViewSpL r = false)
    (h3 : findByIdL "div" "headerBanner" r = some bannerDiv) :
    applyEdits r = (insertAfterBannerL r).getD r ∧
    bannerCountL (applyEdits r) = bannerCountL r := by
  obtain ⟨l', hr, hi⟩ := (replInsL r).2 h3
  have hmain : applyEdits r = l' := by
    unfold applyEdits
    simp only [removeWidgetsL_id r h1, removeViewSpL_id r h2, hr]
  constructor
  · rw [hmain, hi]
    rfl
  · rw [hmain, bannerCountL_insertAfter r l' hi]

/-- Witness for C10: the document obtained by editing a bare `bodyGrid`
container satisfies the hypotheses, and the theorem applies to it. -/
theorem C10_witness :
    hasRankingWidgetL (applyEdits gridDoc) = false ∧
    hasViewSpL (applyEdits gridDoc) = false ∧
    findByIdL "div" "headerBanner" (applyEdits gridDoc) = some bannerDiv ∧
    (applyEdits (applyEdits gridDoc) =
        (insertAfterBannerL (applyEdits gridDoc)).getD (applyEdits gridDoc) ∧
      bannerCountL (applyEdits (applyEdits gridDoc)) = bannerCountL (applyEdits gridDoc)) :=
  ⟨rfl, rfl, rfl, C10_edits_idempotent_up_to_newline (applyEdits gridDoc) rfl rfl rfl⟩

/-- Counterexample to C10 as stated: applying the rewrite to the
already-edited document `applyEdits gridDoc` does not return it unchanged —
the result has one more top-level node (the extra newline after the
banner). -/
theorem C10_counterexample : applyEdits (applyEdits gridDoc) ≠ applyEdits gridDoc :=
  fun h => absurd (congrArg NodeList.length h) (by decide)

/-! ## C6: the upload pass -/

/-- C6 (code bug): the walk does skip `.metadata` files and does warn-and-skip
objects without a usable Content-Type (first conjunct: only the good file is
uploaded, the two deficient ones are warned about, nothing fails); but a
single upload failure does not stay swallowed: the `except` handler at
`AwsS3Upload.py` line 104 calls `retry_file.add(file_path)` on the closed
file *handle* (a typo for the `retry_files` set), so the handler raises
`AttributeError` and the walk terminates instead of aggregating the failure
and continuing (second conjunct: with a failing file in the middle, the
whole walk is an error and the later uploadable file is never reached). -/
theorem C6_upload_failure_kills_walk :
    uploadWalk ".\\bucket" false [ufMeta, ufGood, ufNoMeta, ufNoCT] ⟨[], [], []⟩ =
      .ok ⟨[("a.html", "text/html")], [], [".\\bucket\\nometa.css", ".\\bucket\\noct.js"]⟩ ∧
    uploadWalk ".\\bucket" false [ufMeta, ufGood, ufNoMeta, ufNoCT, ufBad, ufLater]
        ⟨[], [], []⟩ =
      .error "AttributeError: '_io.TextIOWrapper' object has no attribute 'add' while handling .\\bucket\\bad.bin" :=
  ⟨rfl, rfl⟩

/-! ## C5: the sitemap loader -/

/-- Counterexample to C5 as stated: for a feed entry with a `loc` but no
`lastmod` element, `load_sitemap` does not emit the entry with an absent
timestamp — line 68 dereferences `.text` of the missing element, the
`AttributeError` reaches the generic `except`, and the whole load collapses
to the empty list. -/
theorem C5_counterexample :
    load_sitemap (some [{ loc := some "https://ex.com/a", lastmod := none }]) = [] ∧
    load_sitemap (some [{ loc := some "https://ex.com/a", lastmod := none }]) ≠
      [{ loc := "https://ex.com/a", lastmod := none, changefreq := "never",
         priority := (1 : ℚ) / 2 }] :=
  ⟨rfl, by decide⟩

theorem rawOk_isSome : ∀ {r : RawEntry}, rawOk r = true → (parseRaw r).isSome
  | ⟨some _, some lm⟩, h => by
    unfold parseRaw
    cases lm with
    | none => simp [parseLastmodText]
    | some t =>
      simp only [parseLastmodText]
      by_cases ht : t = ""
      · rw [if_pos ht]
        simp
      · rw [if_neg ht]
        unfold rawOk at h
        rw [Bool.or_eq_true] at h
        rcases h with h | h
        · exact absurd (of_decide_eq_true h) ht
        · cases hs : strptimeZ t with
          | some d => simp
          | none =>
            rw [hs] at h
            simp at h
  | ⟨some _, none⟩, h => by simp [rawOk] at h
  | ⟨none, _⟩, h => by simp [rawOk] at h

theorem seqEntries_eq {raws : List RawEntry} (h : ∀ r ∈ raws, (parseRaw r).isSome) :
    seqEntries raws = some (raws.filterMap parseRaw) := by
  induction raws with
  | nil => rfl
  | cons r t ih =>
    have hr := h r (List.mem_cons_self _ _)
    cases hp : parseRaw r with
    | none =>
      rw [hp] at hr
      simp at hr
    | some e =>
      unfold seqEntries
      rw [hp, ih (fun x hx => h x (List.mem_cons_of_mem _ hx))]
      simp [List.filterMap_cons, hp]

theorem parseRaw_fields : ∀ {r : RawEntry} {e : SEntry}, parseRaw r = some e →
    e.changefreq = "never" ∧ e.priority = (1 : ℚ) / 2
  | ⟨some l, some lm⟩, e, h => by
    unfold parseRaw at h
    dsimp only at h
    cases hp : parseLastmodText lm with
    | none =>
      rw [hp] at h
      cases h
    | some lastmod =>
      rw [hp] at h
      cases h
      exact ⟨rfl, rfl⟩
  | ⟨some _, none⟩, _, h => by simp [parseRaw] at h
  | ⟨none, _⟩, _, h => by simp [parseRaw] at h

theorem length_filterMap_all {α β : Type} (f : α → Option β) :
    ∀ l : List α, (∀ x ∈ l, (f x).isSome) → (l.filterMap f).length = l.length
  | [], _ => rfl
  | x :: t, h => by
    have hx := h x (List.mem_cons_self _ _)
    cases hf : f x with
    | none =>
      rw [hf] at hx
      simp at hx
    | some y =>
      rw [List.filterMap_cons, hf]
      simp [length_filterMap_all f t (fun z hz => h z (List.mem_cons_of_mem _ hz))]

/-- C5 (corrected): over a feed whose entries all expose `loc` and `lastmod`
elements with parseable non-empty text (`rawOk`), `load_sitemap` emits one
record per entry — lastmod absent exactly when the element's text is empty,
parsed to a timezone-aware timestamp otherwise — with change-frequency fixed
to `never` and priority fixed to `0.5` regardless of feed content, sorted
lexicographically by location.  (The claim's "lastmod optional" part is
corrected: a missing `lastmod` *element* aborts the whole load, see the
counterexample.) -/
theorem C5_load_sitemap_fixed_fields_sorted (raws : List RawEntry)
    (h : raws.all rawOk = true) :
    load_sitemap (some raws) = sortByLoc (raws.filterMap parseRaw) ∧
    (load_sitemap (some raws)).length = raws.length ∧
    (∀ e ∈ load_sitemap (some raws), e.changefreq = "never" ∧ e.priority = (1 : ℚ) / 2) ∧
    SortedByLoc (load_sitemap (some raws)) ∧
    (∀ r ∈ raws, ∀ l, r.loc = some l →
      (r.lastmod = some none ∨ r.lastmod = some (some "") →
        ({ loc := l, lastmod := none, changefreq := "never",
           priority := (1 : ℚ) / 2 } : SEntry) ∈ load_sitemap (some raws)) ∧
      (∀ t d, r.lastmod = some (some t) → strptimeZ t = some d →
        ({ loc := l, lastmod := some d, changefreq := "never",
           priority := (1 : ℚ) / 2 } : SEntry) ∈ load_sitemap (some raws))) := by
  have hall : ∀ r ∈ raws, (parseRaw r).isSome := by
    intro r hr
    exact rawOk_isSome (List.all_eq_true.mp h r hr)
  have heq : load_sitemap (some raws) = sortByLoc (raws.filterMap parseRaw) := by
    unfold load_sitemap
    dsimp only
    rw [seqEntries_eq hall]
  refine ⟨heq, ?_, ?_, ?_, ?_⟩
  · rw [heq, length_sortByLoc, length_filterMap_all parseRaw raws hall]
  · intro e he
    rw [heq, mem_sortByLoc] at he
    obtain ⟨r, _, hp⟩ := List.mem_filterMap.mp he
    exact parseRaw_fields hp
  · rw [heq]
    exact sortedByLoc_sortByLoc _
  · intro r hr l hl
    constructor
    · intro hlm
      rw [heq, mem_sortByLoc, List.mem_filterMap]
      refine ⟨r, hr, ?_⟩
      obtain ⟨lo, lm⟩ := r
      dsimp only at hl
      cases hl
      rcases hlm with hlm | hlm
      · dsimp only at hlm
        cases hlm
        rfl
      · dsimp only at hlm
        cases hlm
        rfl
    · intro t d hlm hs
      rw [heq, mem_sortByLoc, List.mem_filterMap]
      refine ⟨r, hr, ?_⟩
      obtain ⟨lo, lm⟩ := r
      dsimp only at hl hlm
      cases hl
      cases hlm
      unfold parseRaw parseLastmodText
      dsimp only
      have ht : t ≠ "" := by
        intro he
        rw [he] at hs
        simp [strptimeZ] at hs
      rw [if_neg ht, hs]
      rfl

/-- A well-formed two-entry feed: one entry with a full timestamp, one with
an empty `lastmod` element, listed out of order. -/
def rawsW : List RawEntry :=
  [{ loc := some "https://ex.com/b", lastmod := some (some "2023-05-01T10:00:00+0900") },
   { loc := some "https://ex.com/a", lastmod := some none }]

/-- Witness for C5: the amended theorem applied to `rawsW`, whose output is
the sorted pair of records with the overridden constants. -/
theorem C5_witness :
    rawsW.all rawOk = true ∧
    load_sitemap (some rawsW) = sortByLoc (rawsW.filterMap parseRaw) ∧
    load_sitemap (some rawsW) =
      [{ loc := "https://ex.com/a", lastmod := none, changefreq := "never",
         priority := (1 : ℚ) / 2 },
       { loc := "https://ex.com/b",
         lastmod := some { year := 2023, month := 5, day := 1, hour := 10,
                           minute := 0, second := 0, offMinutes := 540 },
         changefreq := "never", priority := (1 : ℚ) / 2 }] :=
  ⟨by decide, (C5_load_sitemap_fixed_fields_sorted rawsW (by decide)).1, rfl⟩

/-! ## C3 and C4: the retry gate and the redirect check -/

/-- C3 (corrected): in retry mode the HTML fetch path is gated — for a URL
not in the retry ledger, `download_html` returns immediately with no request,
no file written and no change to any bookkeeping set, and the caller treats
the empty result as nothing-to-do (it records the URL as processed).  The
correction: the worklist's raw extension branch is *not* gated, so a
worklist URL with a file extension is requested and saved regardless of
ledger membership (second conjunct). -/
theorem C3_retry_gate_except_extension_branch
    (sv : Server) (cfg : Cfg) (url lp : String) (rec : Bool) (st : St)
    (hgate : url ∉ st.retryUrls) :
    download_html sv cfg true url lp rec st = (st, some []) ∧
    (∀ r, slookup url sv = some r → containsChar url '?' = false →
      url ∉ st.processed → extBranchCond cfg url = true →
      flookup (worklistStep sv cfg true url st).files (localPathOf cfg url) = some r.raw ∧
      url ∈ (worklistStep sv cfg true url st).processed) := by
  constructor
  · unfold download_html
    rw [if_pos ⟨rfl, hgate⟩]
  · intro r hsv hq hp hext
    unfold worklistStep wsCore
    dsimp only
    have hstrip : ¬ (containsChar url '?' = true ∧ isTagUrl cfg url = false) := by
      intro hc
      rw [hq] at hc
      exact absurd hc.1 (by simp)
    rw [if_neg hstrip, if_neg hstrip, if_neg hp, if_pos hext, hsv]
    unfold dhAndMark download_html
    rw [if_pos ⟨rfl, not_mem_sremove_self url st.retryUrls⟩]
    constructor
    · show flookup (fset (localPathOf cfg url) r.raw st.files) (localPathOf cfg url) = some r.raw
      simp [flookup, fset]
    · show url ∈ sinsert url (sinsert url st.processed)
      rw [mem_sinsert]
      exact Or.inl rfl

/-- The concrete empty starting state used by the witnesses. -/
def st0w : St := ⟨[], [], [], [], [], []⟩

/-- The asset response served by `svRetryAsset`. -/
def pngResp : Resp :=
  { redirected := false, raw := "PNGDATA", doc := NL [], contentType := some "image/png" }

/-- Witness for C3: the gate equation and the ungated extension branch, both
at the asset URL of the retry-mode scenario with an empty ledger state. -/
theorem C3_witness :
    download_html svRetryAsset cfgEx true "https://ex.com/a.png" ".\\site\\a.png" true st0w =
      (st0w, some []) ∧
    flookup (worklistStep svRetryAsset cfgEx true "https://ex.com/a.png" st0w).files
      (localPathOf cfgEx "https://ex.com/a.png") = some pngResp.raw ∧
    "https://ex.com/a.png" ∈ (worklistStep svRetryAsset cfgEx true "https://ex.com/a.png" st0w).processed := by
  have hmain := C3_retry_gate_except_extension_branch svRetryAsset cfgEx
    "https://ex.com/a.png" ".\\site\\a.png" true st0w (by decide)
  have hb := hmain.2 pngResp rfl (by decide) (by decide) (by decide)
  exact ⟨hmain.1, hb.1, hb.2⟩

/-- Counterexample to C3 as stated: in the retry-mode run whose startup
ledger is exactly `{https://ex.com}`, the asset URL is not in the ledger and
yet the run requests it, writes its bytes to disk and records it as
processed. -/
theorem C3_counterexample :
    "https://ex.com/a.png" ∉ (["https://ex.com"] : List String) ∧
    flookup runRetryAsset.final.files ".\\site\\a.png" = some "PNGDATA" ∧
    "https://ex.com/a.png" ∈ runRetryAsset.final.processed := by
  refine ⟨by decide, by decide, by decide⟩

/-- C4 (corrected): on the HTML fetch path a response with non-empty history
is never saved: `download_html` only records the URL in the skipped set and
returns no links (so the caller does not record it as processed).  The
correction: the worklist's raw extension branch never inspects the response
history, so a redirected extension URL *is* saved and recorded as processed
(see the counterexample). -/
theorem C4_redirect_html_path_skips
    (sv : Server) (cfg : Cfg) (rm : Bool) (url lp : String) (rec : Bool) (st : St)
    (r : Resp) (hsv : slookup url sv = some r) (hred : r.redirected = true)
    (hgate : ¬ (rm = true ∧ url ∉ st.retryUrls)) :
    download_html sv cfg rm url lp rec st =
      ({ st with skipped := sinsert url st.skipped }, none) := by
  unfold download_html
  rw [if_neg hgate, hsv]
  dsimp only
  rw [if_pos hred]

/-- Witness for C4: the redirected asset response of `svRedirAsset`, fetched
through the HTML path from the empty state, only augments the skipped set. -/
theorem C4_witness :
    download_html svRedirAsset cfgEx false "https://ex.com/a.png" ".\\site\\a.png" true st0w =
      ({ st0w with skipped := sinsert "https://ex.com/a.png" st0w.skipped }, none) :=
  C4_redirect_html_path_skips svRedirAsset cfgEx false "https://ex.com/a.png" ".\\site\\a.png"
    true st0w { redirected := true, raw := "PNG", doc := NL [], contentType := some "image/png" }
    rfl rfl (by decide)

/-- Counterexample to C4 as stated: in the run against `svRedirAsset` the
asset URL redirects (history non-empty), yet its raw bytes are written to
the destination path and the URL ends in `processedUrls`. -/
theorem C4_counterexample :
    (slookup "https://ex.com/a.png" svRedirAsset).map Resp.redirected = some true ∧
    flookup runRedirAsset.final.files ".\\site\\a.png" = some "PNG" ∧
    "https://ex.com/a.png" ∈ runRedirAsset.final.processed := by
  refine ⟨rfl, by decide, by decide⟩

/-- Counterexample to C1 as stated: in the same run the redirected asset URL
is in `processedUrls` (added by the raw extension branch) *and* in
`skippedUrls` (added by the subsequent HTML-path call), so
`processedUrls ∩ skippedUrls ≠ ∅`. -/
theorem C1_counterexample :
    "https://ex.com/a.png" ∈ runRedirAsset.final.processed ∧
    "https://ex.com/a.png" ∈ runRedirAsset.final.skipped ∧
    disjointL runRedirAsset.final.processed runRedirAsset.final.skipped = false := by
  refine ⟨by decide, by decide, by decide⟩

/-! ## C2: the extension branch falls through into the HTML path -/

/-- C2 (code bug): for the worklist URL `https://ex.com/d.txt`, whose path
ends in a file extension, the raw branch saves the asset bytes — but the
branch does not `continue`, so line 273 then calls `download_html` on the
same URL and path, which re-fetches, HTML-parses, applies the structural
rewrite (here: inserts the archive banner before `bodyGrid`) and overwrites
the asset file with the serialized document, also overwriting the metadata
default (`application/octet-stream`) with `text/html`.  The destination file
is therefore not the asset itself, contradicting the claim; the claim
matches the obvious intent (the raw branch is otherwise pointless), so the
missing `continue` is a code bug. -/
theorem C2_extension_branch_overwrites_asset :
    flookup runTextAsset.final.files ".\\site\\d.txt" = some overwrittenAsset ∧
    overwrittenAsset ≠ "plain asset bytes" ∧
    overwrittenAsset =
      "<div id=\"headerBanner\"><span class=\"da-fg da-gray\"><span class=\"da-bg da-yellow\">　　本ページはアーカイブです。　　</span></span></div>\n<div id=\"bodyGrid\"></div>" ∧
    flookup runTextAsset.final.metas ".\\site\\d.txt.metadata" =
      some "Content-Type: text/html\n" ∧
    "https://ex.com/d.txt" ∈ runTextAsset.final.processed := by
  refine ⟨by decide, by decide, by decide, by decide, by decide⟩

/-! ## C8: the normalization worked example -/

/-- C8: on page `https://ex.com/p` (served as the top page of `ex.com`), the
link `https://ex.com/p?x=1#frag` is collected with its fragment stripped;
the worklist then strips the query, fetches `https://ex.com/p` (which ends
processed) and records the pre-truncation original `https://ex.com/p?x=1` in
`skippedUrls` — which at run end contains exactly that URL; the link
`https://ex.com/tagcloud?tag=news` maps to local path
`.\site\tagcloud\news`, is fetched under its query form (never stripped,
never in `skippedUrls`) and its index document is written under the
rewritten path. -/
theorem C8_normalization_example :
    extractLinks cfgEx "https://ex.com"
      (pageWith ["https://ex.com/p?x=1#frag", "https://ex.com/tagcloud?tag=news"]) =
      ["https://ex.com/p?x=1", "https://ex.com/tagcloud?tag=news"] ∧
    runNorm.final.skipped = ["https://ex.com/p?x=1"] ∧
    "https://ex.com/p" ∈ runNorm.final.processed ∧
    "https://ex.com/p?x=1" ∉ runNorm.final.processed ∧
    localPathOf cfgEx "https://ex.com/tagcloud?tag=news" = ".\\site\\tagcloud\\news" ∧
    "https://ex.com/tagcloud?tag=news" ∈ runNorm.final.processed ∧
    "https://ex.com/tagcloud?tag=news" ∉ runNorm.final.skipped ∧
    flookup runNorm.final.files ".\\site\\tagcloud\\news\\index.html" ≠ none := by
  refine ⟨by decide, by decide, by decide, by decide, by decide, by decide, by decide, by decide⟩

/-! ## C9: the retry-ledger end state -/

/-- C9: at run end, when no fetch failures remain the retry ledger file is
deleted (`retryFileEnd = none`; an empty-but-present file is never the end
state, since the startup-created empty file is removed too), and when at
least one failure remains the file is written non-empty with exactly the
failed URLs, sorted one per line. -/
theorem C9_retry_ledger_end_state (sv : Server) (cfg : Cfg) (smd : List SEntry)
    (now : String) (ledger0 : Option (List String)) (fuel : Nat) :
    ((crawl sv cfg smd now ledger0 fuel).final.retryUrls = [] →
      (crawl sv cfg smd now ledger0 fuel).retryFileEnd = none) ∧
    ((crawl sv cfg smd now ledger0 fuel).final.retryUrls ≠ [] →
      (crawl sv cfg smd now ledger0 fuel).retryFileEnd =
        some (sortStr (crawl sv cfg smd now ledger0 fuel).final.retryUrls) ∧
      sortStr (crawl sv cfg smd now ledger0 fuel).final.retryUrls ≠ [] ∧
      (∀ u, u ∈ sortStr (crawl sv cfg smd now ledger0 fuel).final.retryUrls ↔
        u ∈ (crawl sv cfg smd now ledger0 fuel).final.retryUrls)) := by
  constructor
  · intro h
    show mkRetryFile (crawl sv cfg smd now ledger0 fuel).final.retryUrls = none
    unfold mkRetryFile
    rw [if_pos h]
  · intro h
    refine ⟨?_, sortStr_ne_nil h, fun u => mem_sortStr⟩
    show mkRetryFile (crawl sv cfg smd now ledger0 fuel).final.retryUrls = _
    unfold mkRetryFile
    rw [if_neg h]

/-- Witness for C9: the run against `svBroken` ends with one remaining
failure and a non-empty sorted ledger file; the run against `svNorm` ends
clean and the ledger file is gone. -/
theorem C9_witness :
    runBroken.final.retryUrls ≠ [] ∧
    runBroken.retryFileEnd = some (sortStr runBroken.final.retryUrls) ∧
    sortStr runBroken.final.retryUrls ≠ [] ∧
    runNorm.final.retryUrls = [] ∧
    runNorm.retryFileEnd = none := by
  have h1 := (C9_retry_ledger_end_state svBroken cfgEx [] "2024-01-01T00:00:00+0000" none 20).2
    (by decide)
  have h2 := (C9_retry_ledger_end_state svNorm cfgEx [] "2024-01-01T00:00:00+0000" none 20).1
    (by decide)
  exact ⟨by decide, h1.1, h1.2.1, by decide, h2⟩

/-! ## Characterization of `download_html` and string facts -/

theorem containsC_takeWhile_ne (c : Char) :
    ∀ l : List Char, containsC (l.takeWhile (fun x => x ≠ c)) c = false := by
  intro l
  induction l with
  | nil => rfl
  | cons x t ih =>
    rw [List.takeWhile_cons]
    by_cases hx : x = c
    · rw [if_neg (by simp [hx])]
      rfl
    · rw [if_pos (by simp [hx])]
      unfold containsC
      rw [ih]
      simp [hx]

theorem containsChar_takeUntil (u : String) (c : Char) :
    containsChar (takeUntilChar u c) c = false := by
  unfold containsChar takeUntilChar
  exact containsC_takeWhile_ne c u.toList

theorem qshape_takeUntil (cfg : Cfg) (u : String) :
    qshape cfg (takeUntilChar u '?') = false := by
  unfold qshape
  rw [containsChar_takeUntil]
  rfl

theorem isPre_self : ∀ l : List Char, isPre l l = true
  | [] => rfl
  | a :: t => by simp [isPre, isPre_self t]

theorem startsWithStr_self (u : String) : startsWithStr u u = true :=
  isPre_self u.toList

theorem isPre_takeWhile_ne :
    ∀ (t l : List Char), isPre t l = true → containsC t '?' = false →
      isPre t (l.takeWhile (fun x => x ≠ '?')) = true
  | [], _, _, _ => rfl
  | _ :: _, [], h, _ => by simp [isPre] at h
  | c :: t', x :: l', h, hc => by
    unfold isPre at h
    rw [Bool.and_eq_true] at h
    have hcx : c = x := of_decide_eq_true h.1
    subst hcx
    unfold containsC at hc
    rw [Bool.or_eq_false_iff] at hc
    have hcq : ¬ c = '?' := by simpa using hc.1
    rw [List.takeWhile_cons, if_pos (by simp [hcq])]
    unfold isPre
    rw [Bool.and_eq_true]
    exact ⟨by simp, isPre_takeWhile_ne t' l' h.2 hc.2⟩

theorem startsWith_takeUntil {u t : String} (h : startsWithStr u t = true)
    (hq : containsChar t '?' = false) :
    startsWithStr (takeUntilChar u '?') t = true := by
  unfold startsWithStr takeUntilChar
  exact isPre_takeWhile_ne t.toList u.toList h hq

/-- The four possible outcomes of one `download_html` call: the retry gate,
a failed request, a redirect, or a clean save. -/
theorem dh_spec (sv : Server) (cfg : Cfg) (rm : Bool) (url lp : String) (rec : Bool) (st : St) :
    (rm = true ∧ url ∉ st.retryUrls ∧
      download_html sv cfg rm url lp rec st = (st, some [])) ∨
    (¬ (rm = true ∧ url ∉ st.retryUrls) ∧ slookup url sv = none ∧
      download_html sv cfg rm url lp rec st =
        ({ st with retryUrls := sinsert url st.retryUrls }, none)) ∨
    (∃ r, ¬ (rm = true ∧ url ∉ st.retryUrls) ∧ slookup url sv = some r ∧
      r.redirected = true ∧
      download_html sv cfg rm url lp rec st =
        ({ st with skipped := sinsert url st.skipped }, none)) ∨
    (∃ r fs ms, ¬ (rm = true ∧ url ∉ st.retryUrls) ∧ slookup url sv = some r ∧
      r.redirected = false ∧
      download_html sv cfg rm url lp rec st =
        ({ st with files := fs, metas := ms, retryUrls := sremove url st.retryUrls },
          some (if rec then extractLinks cfg url (applyEdits r.doc) else []))) := by
  by_cases hg : rm = true ∧ url ∉ st.retryUrls
  · left
    refine ⟨hg.1, hg.2, ?_⟩
    unfold download_html
    rw [if_pos hg]
  · cases hsv : slookup url sv with
    | none =>
      right; left
      refine ⟨hg, rfl, ?_⟩
      unfold download_html
      rw [if_neg hg, hsv]
    | some r =>
      by_cases hred : r.redirected = true
      · right; right; left
        refine ⟨r, hg, rfl, hred, ?_⟩
        unfold download_html
        rw [if_neg hg, hsv]
        dsimp only
        rw [if_pos hred]
      · right; right; right
        refine ⟨r,
          fset lp (pyReplace (serializeL (applyEdits r.doc)) "/tagcloud?tag=" "/tagcloud/")
            st.files,
          fset (lp ++ ".metadata")
            ("Content-Type: " ++ r.contentType.getD "text/html" ++ "\n") st.metas,
          hg, rfl, by simpa using hred, ?_⟩
        unfold download_html
        rw [if_neg hg, hsv]
        dsimp only
        rw [if_neg hred]

/-! ## Preservation of the disjointness invariant -/

theorem invC1_pending {sv : Server} {cfg : Cfg} {rm : Bool} {L0 : List String} {st : St}
    (h : InvC1 sv cfg rm L0 st) (p : List String) :
    InvC1 sv cfg rm L0 { st with pending := p } :=
  ⟨h.proc, h.skip, h.ledg, h.retr⟩

theorem invC1_retryAdd {sv : Server} {cfg : Cfg} {rm : Bool} {L0 : List String} {st : St}
    {url : String} (h : InvC1 sv cfg rm L0 st) (hsv : slookup url sv = none) :
    InvC1 sv cfg rm L0 { st with retryUrls := sinsert url st.retryUrls } := by
  constructor
  · intro u hu
    rcases h.proc u hu with he | ⟨hq, hc⟩
    · exact Or.inl he
    · refine Or.inr ⟨hq, fun hlr => ?_⟩
      obtain ⟨hrm, hnm⟩ := hc hlr
      refine ⟨hrm, fun hmem => ?_⟩
      rcases mem_sinsert.mp hmem with rfl | hmem
      · obtain ⟨r, hr', _⟩ := hlr
        rw [hsv] at hr'
        cases hr'
      · exact hnm hmem
  · exact h.skip
  · intro hrm u hu hnm
    exact h.ledg hrm u hu (fun hm => hnm (mem_sinsert.mpr (Or.inr hm)))
  · intro hrm u hu
    rcases mem_sinsert.mp hu with rfl | hu
    · exact Or.inl hsv
    · exact h.retr hrm u hu

theorem invC1_skipAddQ {sv : Server} {cfg : Cfg} {rm : Bool} {L0 : List String} {st : St}
    {url : String} (h : InvC1 sv cfg rm L0 st) (hq : qshape cfg url = true) :
    InvC1 sv cfg rm L0 { st with skipped := sinsert url st.skipped } := by
  refine ⟨h.proc, ?_, h.ledg, h.retr⟩
  intro u hu
  rcases mem_sinsert.mp hu with rfl | hu
  · exact Or.inl hq
  · exact h.skip u hu

theorem invC1_skipAddRedir {sv : Server} {cfg : Cfg} {rm : Bool} {L0 : List String} {st : St}
    {url : String} {r : Resp} (h : InvC1 sv cfg rm L0 st)
    (hsv : slookup url sv = some r) (hred : r.redirected = true)
    (hgate : ¬ (rm = true ∧ url ∉ st.retryUrls)) :
    InvC1 sv cfg rm L0 { st with skipped := sinsert url st.skipped } := by
  refine ⟨h.proc, ?_, h.ledg, h.retr⟩
  intro u hu
  rcases mem_sinsert.mp hu with rfl | hu
  · refine Or.inr ⟨⟨r, hsv, hred⟩, fun hrm => ?_⟩
    have hmem : u ∈ st.retryUrls := by
      by_contra hnm
      exact hgate ⟨hrm, hnm⟩
    rcases h.retr hrm u hmem with hn | hl
    · rw [hsv] at hn
      cases hn
    · exact hl
  · exact h.skip u hu

theorem invC1_success {sv : Server} {cfg : Cfg} {rm : Bool} {L0 : List String} {st : St}
    {url : String} {r : Resp} (h : InvC1 sv cfg rm L0 st) (fs ms : List (String × String))
    (hsv : slookup url sv = some r) (hred : r.redirected = false) :
    InvC1 sv cfg rm L0
      { st with files := fs, metas := ms, retryUrls := sremove url st.retryUrls } := by
  constructor
  · intro u hu
    rcases h.proc u hu with he | ⟨hq, hc⟩
    · exact Or.inl he
    · refine Or.inr ⟨hq, fun hlr => ?_⟩
      obtain ⟨hrm, hnm⟩ := hc hlr
      exact ⟨hrm, fun hmem => hnm (mem_sremove.mp hmem).1⟩
  · exact h.skip
  · intro hrm u hu hnm
    by_cases he : u = url
    · subst he
      exact ⟨r, hsv, hred⟩
    · exact h.ledg hrm u hu (fun hm => hnm (mem_sremove.mpr ⟨hm, he⟩))
  · intro hrm u hu
    exact h.retr hrm u (mem_sremove.mp hu).1

/-- Adding `url` to the processed set preserves the invariant whenever the
state could only skip `url` through the retry gate or a clean fetch. -/
theorem invC1_markProcessed {sv : Server} {cfg : Cfg} {rm : Bool} {L0 : List String} {st : St}
    {url : String} (h : InvC1 sv cfg rm L0 st) (hq : qshape cfg url = false)
    (hok : lookRedir sv url → rm = true ∧ url ∉ st.retryUrls) :
    InvC1 sv cfg rm L0 { st with processed := sinsert url st.processed } := by
  refine ⟨?_, h.skip, h.ledg, h.retr⟩
  intro u hu
  rcases mem_sinsert.mp hu with rfl | hu
  · exact Or.inr ⟨hq, hok⟩
  · exact h.proc u hu

/-- The master lemma: `download_html` preserves the invariant, and when it
returns a link set the caller may also mark the URL processed. -/
theorem invC1_dh (sv : Server) (cfg : Cfg) (rm : Bool) (L0 : List String)
    (url lp : String) (rec : Bool) (st : St)
    (h : InvC1 sv cfg rm L0 st) (hq : qshape cfg url = false) :
    InvC1 sv cfg rm L0 (download_html sv cfg rm url lp rec st).1 ∧
    (∀ st' links, download_html sv cfg rm url lp rec st = (st', some links) →
      InvC1 sv cfg rm L0 { st' with processed := sinsert url st'.processed }) := by
  rcases dh_spec sv cfg rm url lp rec st with
    ⟨hrm, hnm, heq⟩ | ⟨hg, hsv, heq⟩ | ⟨r, hg, hsv, hred, heq⟩ |
    ⟨r, fs, ms, hg, hsv, hred, heq⟩
  · constructor
    · rw [heq]
      exact h
    · intro st' links heq2
      rw [heq] at heq2
      injection heq2 with h1 h2
      subst h1
      exact invC1_markProcessed h hq (fun _ => ⟨hrm, hnm⟩)
  · constructor
    · rw [heq]
      exact invC1_retryAdd h hsv
    · intro st' links heq2
      rw [heq] at heq2
      injection heq2 with h1 h2
      cases h2
  · constructor
    · rw [heq]
      exact invC1_skipAddRedir h hsv hred hg
    · intro st' links heq2
      rw [heq] at heq2
      injection heq2 with h1 h2
      cases h2
  · constructor
    · rw [heq]
      exact invC1_success h fs ms hsv hred
    · intro st' links heq2
      rw [heq] at heq2
      injection heq2 with h1 h2
      subst h1
      refine invC1_markProcessed (invC1_success h fs ms hsv hred) hq ?_
      intro hlr
      obtain ⟨r', hr', hred'⟩ := hlr
      rw [hsv] at hr'
      cases hr'
      rw [hred'] at hred
      cases hred

theorem invC1_dhAndMark (sv : Server) (cfg : Cfg) (rm : Bool) (L0 : List String)
    (url lp : String) (st : St) (h : InvC1 sv cfg rm L0 st)
    (hq : qshape cfg url = false) :
    InvC1 sv cfg rm L0 (dhAndMark sv cfg rm url lp st) := by
  unfold dhAndMark
  cases hdl : download_html sv cfg rm url lp true st with
  | mk st' res =>
    cases res with
    | none =>
      have := (invC1_dh sv cfg rm L0 url lp true st h hq).1
      rw [hdl] at this
      exact this
    | some links =>
      have hm := (invC1_dh sv cfg rm L0 url lp true st h hq).2 st' links hdl
      exact invC1_pending
        (⟨hm.proc, hm.skip, hm.ledg, hm.retr⟩ : InvC1 sv cfg rm L0 _) _

theorem invC1_wsCore (sv : Server) (cfg : Cfg) (rm : Bool) (L0 : List String)
    (url : String) (st : St)
    (Hext : ∀ p ∈ sv, p.2.redirected = true → extBranchCond cfg p.1 = false)
    (h : InvC1 sv cfg rm L0 st) (hq : qshape cfg url = false) :
    InvC1 sv cfg rm L0 (wsCore sv cfg rm url st) := by
  unfold wsCore
  by_cases hp : url ∈ st.processed
  · rw [if_pos hp]
    exact h
  · rw [if_neg hp]
    by_cases hext : extBranchCond cfg url = true
    · rw [if_pos hext]
      dsimp only
      cases hsv : slookup url sv with
      | some r =>
        have hred : r.redirected = false := by
          by_contra hr
          rw [Bool.not_eq_false] at hr
          rw [Hext (url, r) (slookup_mem sv hsv) hr] at hext
          cases hext
        refine invC1_dhAndMark sv cfg rm L0 url _ _ ?_ hq
        refine invC1_markProcessed (invC1_success h _ _ hsv hred) hq ?_
        intro hlr
        obtain ⟨r', hr', hred'⟩ := hlr
        rw [hsv] at hr'
        cases hr'
        rw [hred'] at hred
        cases hred
      | none =>
        exact invC1_dhAndMark sv cfg rm L0 url _ _ (invC1_retryAdd h hsv) hq
    · rw [if_neg hext]
      exact invC1_dhAndMark sv cfg rm L0 url _ _ h hq

theorem invC1_worklistStep (sv : Server) (cfg : Cfg) (rm : Bool) (L0 : List String)
    (url0 : String) (st : St)
    (Hext : ∀ p ∈ sv, p.2.redirected = true → extBranchCond cfg p.1 = false)
    (h : InvC1 sv cfg rm L0 st) :
    InvC1 sv cfg rm L0 (worklistStep sv cfg rm url0 st) := by
  unfold worklistStep
  dsimp only
  by_cases hstrip : containsChar url0 '?' = true ∧ isTagUrl cfg url0 = false
  · rw [if_pos hstrip, if_pos hstrip]
    have hq0 : qshape cfg url0 = true := by
      unfold qshape
      rw [hstrip.1, hstrip.2]
      rfl
    exact invC1_wsCore sv cfg rm L0 _ _ Hext (invC1_skipAddQ h hq0) (qshape_takeUntil cfg url0)
  · rw [if_neg hstrip, if_neg hstrip]
    have hq0 : qshape cfg url0 = false := by
      unfold qshape
      by_cases hc : containsChar url0 '?' = true
      · have ht : isTagUrl cfg url0 = true := by
          by_contra hnt
          exact hstrip ⟨hc, by simpa using hnt⟩
        rw [hc, ht]
        rfl
      · rw [Bool.not_eq_true] at hc
        rw [hc]
        rfl
    exact invC1_wsCore sv cfg rm L0 _ _ Hext h hq0

theorem invC1_runWorklist (sv : Server) (cfg : Cfg) (rm : Bool) (L0 : List String)
    (Hext : ∀ p ∈ sv, p.2.redirected = true → extBranchCond cfg p.1 = false) :
    ∀ (fuel : Nat) (st : St), InvC1 sv cfg rm L0 st →
      InvC1 sv cfg rm L0 (runWorklist sv cfg rm fuel st)
  | 0, st, h => h
  | fuel + 1, st, h => by
    unfold runWorklist
    cases hp : st.pending with
    | nil => exact h
    | cons u rest =>
      exact invC1_runWorklist sv cfg rm L0 Hext fuel _
        (invC1_worklistStep sv cfg rm L0 u _ Hext (invC1_pending h rest))

theorem invC1_sitemapStep (sv : Server) (cfg : Cfg) (rm : Bool) (L0 : List String)
    (st : St) (e : SEntry) (h : InvC1 sv cfg rm L0 st)
    (hqe : qshape cfg e.loc = false) :
    InvC1 sv cfg rm L0 (sitemapStep sv cfg rm st e) := by
  unfold sitemapStep
  by_cases hp : e.loc ∈ st.processed
  · rw [if_pos hp]
    exact h
  · rw [if_neg hp]
    dsimp only
    cases hdl : download_html sv cfg rm e.loc
        (if splitextExt (localPath0 cfg e.loc) = ""
          then localPath0 cfg e.loc ++ "\\" ++ cfg.indexFileName
          else localPath0 cfg e.loc) false st with
    | mk st' res =>
      cases res with
      | none =>
        have := (invC1_dh sv cfg rm L0 e.loc
          (if splitextExt (localPath0 cfg e.loc) = ""
            then localPath0 cfg e.loc ++ "\\" ++ cfg.indexFileName
            else localPath0 cfg e.loc) false st h hqe).1
        rw [hdl] at this
        exact this
      | some links =>
        exact (invC1_dh sv cfg rm L0 e.loc
          (if splitextExt (localPath0 cfg e.loc) = ""
            then localPath0 cfg e.loc ++ "\\" ++ cfg.indexFileName
            else localPath0 cfg e.loc) false st h hqe).2 st' links hdl

theorem invC1_sitemapFold (sv : Server) (cfg : Cfg) (rm : Bool) (L0 : List String) :
    ∀ (l : List SEntry) (st : St), (∀ e ∈ l, qshape cfg e.loc = false) →
      InvC1 sv cfg rm L0 st →
      InvC1 sv cfg rm L0 (l.foldl (sitemapStep sv cfg rm) st)
  | [], _, _, h => h
  | e :: t, st, hql, h => by
    rw [List.foldl_cons]
    exact invC1_sitemapFold sv cfg rm L0 t _
      (fun x hx => hql x (List.mem_cons_of_mem _ hx))
      (invC1_sitemapStep sv cfg rm L0 st e h (hql e (List.mem_cons_self _ _)))

theorem invC1_seedTop (sv : Server) (cfg : Cfg) (rm : Bool) (L0 : List String) (st0 : St)
    (h : InvC1 sv cfg rm L0 st0) (hqtop : qshape cfg (topPageUrl cfg) = false) :
    InvC1 sv cfg rm L0 (seedTop sv cfg rm st0) := by
  unfold seedTop
  cases hdl : download_html sv cfg rm (topPageUrl cfg) (topLocalFile cfg) true st0 with
  | mk st' res =>
    cases res with
    | none =>
      have := (invC1_dh sv cfg rm L0 (topPageUrl cfg) (topLocalFile cfg) true st0 h hqtop).1
      rw [hdl] at this
      exact this
    | some links =>
      have hm := (invC1_dh sv cfg rm L0 (topPageUrl cfg) (topLocalFile cfg) true st0 h
        hqtop).2 st' links hdl
      exact invC1_pending (⟨hm.proc, hm.skip, hm.ledg, hm.retr⟩ : InvC1 sv cfg rm L0 _) _

theorem invC1_finalize (sv : Server) (cfg : Cfg) (rm : Bool) (L0 : List String)
    (smd : List SEntry) (now : String) (st : St) (h : InvC1 sv cfg rm L0 st) :
    InvC1 sv cfg rm L0 (finalize cfg smd now st) := by
  unfold finalize
  dsimp only
  constructor
  · intro u hu
    rcases mem_sinsert.mp hu with rfl | hu
    · exact Or.inl rfl
    · exact h.proc u hu
  · exact h.skip
  · exact h.ledg
  · exact h.retr

theorem invC1_init (sv : Server) (cfg : Cfg) (ledger0 : Option (List String)) :
    InvC1 sv cfg ledger0.isSome (ledger0.getD [])
      ⟨[], [], ledger0.getD [], [], [], []⟩ := by
  constructor
  · intro u hu
    cases hu
  · intro u hu
    cases hu
  · intro _ u hu hnm
    exact absurd hu hnm
  · intro _ u hu
    exact Or.inr hu

/-- C1 (corrected): `processedUrls ∩ skippedUrls = ∅` at completion — under
the side conditions the counterexample forces: no URL the server redirects
may select the raw extension branch (which saves without a history check and
would put a redirected URL into both sets), the sitemap feed URL is neither
query-carrying nor redirected (line 337 adds it to the processed set
unconditionally), sitemap entry locations carry no query string (the sitemap
pass fetches them un-stripped, while the worklist records the stripped
original in `skippedUrls`), and the top page URL carries no query.  Since
the worklist loop runs until `pendingLinks` is empty, this disjunction is
exactly the claimed "at most one of the three sets" at completion. -/
theorem C1_processed_skipped_disjoint (sv : Server) (cfg : Cfg) (smd : List SEntry)
    (now : String) (ledger0 : Option (List String)) (fuel : Nat)
    (H1 : ∀ p ∈ sv, p.2.redirected = true → extBranchCond cfg p.1 = false)
    (H2 : ∀ e ∈ smd, qshape cfg e.loc = false)
    (H3 : qshape cfg (sitemapUrl cfg) = false)
    (H4 : ∀ p ∈ sv, p.1 = sitemapUrl cfg → p.2.redirected = false)
    (H5 : containsChar (topPageUrl cfg) '?' = false) :
    disjointL (crawl sv cfg smd now ledger0 fuel).final.processed
      (crawl sv cfg smd now ledger0 fuel).final.skipped = true := by
  have hqtop : qshape cfg (topPageUrl cfg) = false := by
    unfold qshape
    rw [H5]
    rfl
  have hfin : InvC1 sv cfg ledger0.isSome (ledger0.getD [])
      (crawlFinal sv cfg smd now ledger0 fuel) := by
    unfold crawlFinal
    dsimp only
    refine invC1_finalize _ _ _ _ _ _ _ ?_
    refine invC1_sitemapFold _ _ _ _ _ _ H2 ?_
    refine invC1_runWorklist _ _ _ _ H1 _ _ ?_
    exact invC1_seedTop _ _ _ _ _ (invC1_init sv cfg ledger0) hqtop
  apply disjointL_eq_true
  intro u hu hus
  have hu' : u ∈ (crawlFinal sv cfg smd now ledger0 fuel).processed := hu
  have hus' : u ∈ (crawlFinal sv cfg smd now ledger0 fuel).skipped := hus
  rcases hfin.proc u hu' with rfl | ⟨hq, hcond⟩
  · rcases hfin.skip _ hus' with hq3 | ⟨hlr, _⟩
    · rw [H3] at hq3
      cases hq3
    · obtain ⟨r, hsv, hred⟩ := hlr
      rw [H4 (sitemapUrl cfg, r) (slookup_mem sv hsv) rfl] at hred
      cases hred
  · rcases hfin.skip u hus' with hqt | ⟨hlr, hin⟩
    · rw [hq] at hqt
      cases hqt
    · obtain ⟨hrm, hnm⟩ := hcond hlr
      obtain ⟨r', hsv', hred'⟩ := hfin.ledg hrm u (hin hrm) hnm
      obtain ⟨r, hsv, hred⟩ := hlr
      rw [hsv] at hsv'
      cases hsv'
      rw [hred] at hred'
      cases hred'

/-- Witness for C1: the normalization run satisfies all side conditions, and
its processed and skipped sets — both non-empty — are disjoint. -/
theorem C1_witness :
    (∀ p ∈ svNorm, p.2.redirected = true → extBranchCond cfgEx p.1 = false) ∧
    runNorm.final.skipped ≠ [] ∧
    disjointL runNorm.final.processed runNorm.final.skipped = true :=
  ⟨by decide, by decide,
    C1_processed_skipped_disjoint svNorm cfgEx [] "2024-01-01T00:00:00+0000" none 20
      (by decide) (by decide) (by decide) (by decide) (by decide)⟩

/-! ## Preservation of the same-origin invariant -/

theorem addLinkHref_pres {cfg : Cfg} {pageUrl href : String} {acc : List String}
    (h : ∀ x ∈ acc, startsWithStr x (topPageUrl cfg) = true) :
    ∀ v ∈ addLinkHref cfg pageUrl href acc, startsWithStr v (topPageUrl cfg) = true := by
  intro v hv
  unfold addLinkHref at hv
  split at hv
  · dsimp only at hv
    split at hv
    · next hg =>
      rcases mem_sinsert.mp hv with rfl | hv
      · exact hg
      · exact h v hv
    · exact h v hv
  · exact h v hv

theorem addLinkSrc_pres {cfg : Cfg} {pageUrl src : String} {acc : List String}
    (h : ∀ x ∈ acc, startsWithStr x (topPageUrl cfg) = true) :
    ∀ v ∈ addLinkSrc cfg pageUrl src acc, startsWithStr v (topPageUrl cfg) = true := by
  intro v hv
  unfold addLinkSrc at hv
  split at hv
  · dsimp only at hv
    split at hv
    · next hg =>
      rcases mem_sinsert.mp hv with rfl | hv
      · exact hg
      · exact h v hv
    · exact h v hv
  · exact h v hv

theorem linkStep_pres {cfg : Cfg} {pageUrl : String} {acc : List String} {tg : Node}
    (h : ∀ x ∈ acc, startsWithStr x (topPageUrl cfg) = true) :
    ∀ v ∈ linkStep cfg pageUrl acc tg, startsWithStr v (topPageUrl cfg) = true := by
  intro v hv
  unfold linkStep at hv
  cases hh : attrOf "href" tg with
  | none =>
    rw [hh] at hv
    dsimp only at hv
    cases hs : attrOf "src" tg with
    | none =>
      rw [hs] at hv
      exact h v hv
    | some s =>
      rw [hs] at hv
      exact addLinkSrc_pres h v hv
  | some s1 =>
    rw [hh] at hv
    dsimp only at hv
    cases hs : attrOf "src" tg with
    | none =>
      rw [hs] at hv
      exact addLinkHref_pres h v hv
    | some s =>
      rw [hs] at hv
      exact addLinkSrc_pres (addLinkHref_pres h) v hv

theorem foldl_linkStep_pres {cfg : Cfg} {pageUrl : String} :
    ∀ (tags : List Node) (acc : List String),
      (∀ x ∈ acc, startsWithStr x (topPageUrl cfg) = true) →
      ∀ v ∈ tags.foldl (linkStep cfg pageUrl) acc,
        startsWithStr v (topPageUrl cfg) = true
  | [], _, h => h
  | tg :: t, acc, h => by
    rw [List.foldl_cons]
    exact foldl_linkStep_pres t _ (linkStep_pres h)

theorem mem_extractLinks {cfg : Cfg} {pageUrl : String} {doc : NodeList} :
    ∀ v ∈ extractLinks cfg pageUrl doc, startsWithStr v (topPageUrl cfg) = true := by
  intro v hv
  exact foldl_linkStep_pres _ [] (by intro x hx; cases hx) v hv

theorem invC7_dh (sv : Server) (cfg : Cfg) (locs L0 : List String) (rm : Bool)
    (url lp : String) (rec : Bool) (st : St) (h : InvC7 cfg locs L0 st)
    (hurl : allowedUrl cfg locs L0 url) :
    InvC7 cfg locs L0 (download_html sv cfg rm url lp rec st).1 ∧
    (∀ st' links, download_html sv cfg rm url lp rec st = (st', some links) →
      (∀ v ∈ links, startsWithStr v (topPageUrl cfg) = true) ∧
      InvC7 cfg locs L0 { st' with processed := sinsert url st'.processed }) := by
  rcases dh_spec sv cfg rm url lp rec st with
    ⟨hrm, hnm, heq⟩ | ⟨hg, hsv, heq⟩ | ⟨r, hg, hsv, hred, heq⟩ |
    ⟨r, fs, ms, hg, hsv, hred, heq⟩
  · refine ⟨by rw [heq]; exact h, ?_⟩
    intro st' links heq2
    rw [heq] at heq2
    injection heq2 with h1 h2
    subst h1
    injection h2 with h2
    subst h2
    refine ⟨?_, ?_⟩
    · intro v hv
      cases hv
    refine ⟨h.pend, ?_⟩
    intro v hvm
    rcases hvm with hvp | hvs | hvr
    · rcases mem_sinsert.mp hvp with rfl | hvp
      · exact hurl
      · exact h.rest v (Or.inl hvp)
    · exact h.rest v (Or.inr (Or.inl hvs))
    · exact h.rest v (Or.inr (Or.inr hvr))
  · refine ⟨?_, ?_⟩
    · rw [heq]
      refine ⟨h.pend, ?_⟩
      intro v hvm
      rcases hvm with hvp | hvs | hvr
      · exact h.rest v (Or.inl hvp)
      · exact h.rest v (Or.inr (Or.inl hvs))
      · rcases mem_sinsert.mp hvr with rfl | hvr
        · exact hurl
        · exact h.rest v (Or.inr (Or.inr hvr))
    · intro st' links heq2
      rw [heq] at heq2
      injection heq2 with h1 h2
      cases h2
  · refine ⟨?_, ?_⟩
    · rw [heq]
      refine ⟨h.pend, ?_⟩
      intro v hvm
      rcases hvm with hvp | hvs | hvr
      · exact h.rest v (Or.inl hvp)
      · rcases mem_sinsert.mp hvs with rfl | hvs
        · exact hurl
        · exact h.rest v (Or.inr (Or.inl hvs))
      · exact h.rest v (Or.inr (Or.inr hvr))
    · intro st' links heq2
      rw [heq] at heq2
      injection heq2 with h1 h2
      cases h2
  · have hS : InvC7 cfg locs L0
        { st with files := fs, metas := ms, retryUrls := sremove url st.retryUrls } := by
      refine ⟨h.pend, ?_⟩
      intro v hvm
      rcases hvm with hvp | hvs | hvr
      · exact h.rest v (Or.inl hvp)
      · exact h.rest v (Or.inr (Or.inl hvs))
      · exact h.rest v (Or.inr (Or.inr (mem_sremove.mp hvr).1))
    refine ⟨by rw [heq]; exact hS, ?_⟩
    intro st' links heq2
    rw [heq] at heq2
    injection heq2 with h1 h2
    subst h1
    injection h2 with h2
    subst h2
    constructor
    · intro v hv
      by_cases hrec : rec = true
      · rw [if_pos hrec] at hv
        exact mem_extractLinks v hv
      · rw [if_neg hrec] at hv
        cases hv
    · refine ⟨hS.pend, ?_⟩
      intro v hvm
      rcases hvm with hvp | hvs | hvr
      · rcases mem_sinsert.mp hvp with rfl | hvp
        · exact hurl
        · exact hS.rest v (Or.inl hvp)
      · exact hS.rest v (Or.inr (Or.inl hvs))
      · exact hS.rest v (Or.inr (Or.inr hvr))

theorem invC7_dhAndMark (sv : Server) (cfg : Cfg) (locs L0 : List String) (rm : Bool)
    (url lp : String) (st : St) (h : InvC7 cfg locs L0 st)
    (hurl : allowedUrl cfg locs L0 url) :
    InvC7 cfg locs L0 (dhAndMark sv cfg rm url lp st) := by
  unfold dhAndMark
  cases hdl : download_html sv cfg rm url lp true st with
  | mk st' res =>
    cases res with
    | none =>
      have := (invC7_dh sv cfg locs L0 rm url lp true st h hurl).1
      rw [hdl] at this
      exact this
    | some links =>
      obtain ⟨hlinks, hm⟩ := (invC7_dh sv cfg locs L0 rm url lp true st h hurl).2
        st' links hdl
      constructor
      · intro v hv
        rcases (mem_foldl_sinsert links st'.pending).mp hv with hv | hv
        · exact hm.pend v hv
        · exact hlinks v hv
      · exact hm.rest

theorem invC7_wsCore (sv : Server) (cfg : Cfg) (locs L0 : List String) (rm : Bool)
    (url : String) (st : St) (h : InvC7 cfg locs L0 st)
    (hurl : allowedUrl cfg locs L0 url) :
    InvC7 cfg locs L0 (wsCore sv cfg rm url st) := by
  unfold wsCore
  by_cases hp : url ∈ st.processed
  · rw [if_pos hp]
    exact h
  · rw [if_neg hp]
    by_cases hext : extBranchCond cfg url = true
    · rw [if_pos hext]
      dsimp only
      cases hsv : slookup url sv with
      | some r =>
        refine invC7_dhAndMark sv cfg locs L0 rm url _ _ ?_ hurl
        refine ⟨h.pend, ?_⟩
        intro v hvm
        rcases hvm with hvp | hvs | hvr
        · rcases mem_sinsert.mp hvp with rfl | hvp
          · exact hurl
          · exact h.rest v (Or.inl hvp)
        · exact h.rest v (Or.inr (Or.inl hvs))
        · exact h.rest v (Or.inr (Or.inr (mem_sremove.mp hvr).1))
      | none =>
        refine invC7_dhAndMark sv cfg locs L0 rm url _ _ ?_ hurl
        refine ⟨h.pend, ?_⟩
        intro v hvm
        rcases hvm with hvp | hvs | hvr
        · exact h.rest v (Or.inl hvp)
        · exact h.rest v (Or.inr (Or.inl hvs))
        · rcases mem_sinsert.mp hvr with rfl | hvr
          · exact hurl
          · exact h.rest v (Or.inr (Or.inr hvr))
    · rw [if_neg hext]
      exact invC7_dhAndMark sv cfg locs L0 rm url _ _ h hurl

theorem invC7_worklistStep (sv : Server) (cfg : Cfg) (locs L0 : List String) (rm : Bool)
    (url0 : String) (st : St) (H5 : containsChar (topPageUrl cfg) '?' = false)
    (h : InvC7 cfg locs L0 st)
    (hurl0 : startsWithStr url0 (topPageUrl cfg) = true) :
    InvC7 cfg locs L0 (worklistStep sv cfg rm url0 st) := by
  unfold worklistStep
  dsimp only
  by_cases hstrip : containsChar url0 '?' = true ∧ isTagUrl cfg url0 = false
  · rw [if_pos hstrip, if_pos hstrip]
    refine invC7_wsCore sv cfg locs L0 rm _ _ ?_
      (Or.inl (startsWith_takeUntil hurl0 H5))
    refine ⟨h.pend, ?_⟩
    intro v hvm
    rcases hvm with hvp | hvs | hvr
    · exact h.rest v (Or.inl hvp)
    · rcases mem_sinsert.mp hvs with rfl | hvs
      · exact Or.inl hurl0
      · exact h.rest v (Or.inr (Or.inl hvs))
    · exact h.rest v (Or.inr (Or.inr hvr))
  · rw [if_neg hstrip, if_neg hstrip]
    exact invC7_wsCore sv cfg locs L0 rm url0 st h (Or.inl hurl0)

theorem invC7_runWorklist (sv : Server) (cfg : Cfg) (locs L0 : List String) (rm : Bool)
    (H5 : containsChar (topPageUrl cfg) '?' = false) :
    ∀ (fuel : Nat) (st : St), InvC7 cfg locs L0 st →
      InvC7 cfg locs L0 (runWorklist sv cfg rm fuel st)
  | 0, _, h => h
  | fuel + 1, st, h => by
    unfold runWorklist
    cases hp : st.pending with
    | nil => exact h
    | cons u rest =>
      refine invC7_runWorklist sv cfg locs L0 rm H5 fuel _ ?_
      refine invC7_worklistStep sv cfg locs L0 rm u _ H5 ?_ ?_
      · refine ⟨?_, h.rest⟩
        intro v hv
        refine h.pend v ?_
        rw [hp]
        exact List.mem_cons_of_mem _ hv
      · refine h.pend u ?_
        rw [hp]
        exact List.mem_cons_self _ _

theorem invC7_sitemapStep (sv : Server) (cfg : Cfg) (locs L0 : List String) (rm : Bool)
    (st : St) (e : SEntry) (h : InvC7 cfg locs L0 st) (hloc : e.loc ∈ locs) :
    InvC7 cfg locs L0 (sitemapStep sv cfg rm st e) := by
  unfold sitemapStep
  by_cases hp : e.loc ∈ st.processed
  · rw [if_pos hp]
    exact h
  · rw [if_neg hp]
    dsimp only
    cases hdl : download_html sv cfg rm e.loc
        (if splitextExt (localPath0 cfg e.loc) = ""
          then localPath0 cfg e.loc ++ "\\" ++ cfg.indexFileName
          else localPath0 cfg e.loc) false st with
    | mk st' res =>
      cases res with
      | none =>
        have := (invC7_dh sv cfg locs L0 rm e.loc
          (if splitextExt (localPath0 cfg e.loc) = ""
            then localPath0 cfg e.loc ++ "\\" ++ cfg.indexFileName
            else localPath0 cfg e.loc) false st h (Or.inr (Or.inl hloc))).1
        rw [hdl] at this
        exact this
      | some links =>
        exact ((invC7_dh sv cfg locs L0 rm e.loc
          (if splitextExt (localPath0 cfg e.loc) = ""
            then localPath0 cfg e.loc ++ "\\" ++ cfg.indexFileName
            else localPath0 cfg e.loc) false st h (Or.inr (Or.inl hloc))).2
          st' links hdl).2

theorem invC7_sitemapFold (sv : Server) (cfg : Cfg) (locs L0 : List String) (rm : Bool) :
    ∀ (l : List SEntry) (st : St), (∀ e ∈ l, e.loc ∈ locs) → InvC7 cfg locs L0 st →
      InvC7 cfg locs L0 (l.foldl (sitemapStep sv cfg rm) st)
  | [], _, _, h => h
  | e :: t, st, hql, h => by
    rw [List.foldl_cons]
    exact invC7_sitemapFold sv cfg locs L0 rm t _
      (fun x hx => hql x (List.mem_cons_of_mem _ hx))
      (invC7_sitemapStep sv cfg locs L0 rm st e h (hql e (List.mem_cons_self _ _)))

theorem seedTop_eq_dhAndMark (sv : Server) (cfg : Cfg) (rm : Bool) (st0 : St) :
    seedTop sv cfg rm st0 =
      dhAndMark sv cfg rm (topPageUrl cfg) (topLocalFile cfg) st0 := rfl

theorem invC7_finalize (cfg : Cfg) (locs L0 : List String) (smd : List SEntry)
    (now : String) (st : St) (h : InvC7 cfg locs L0 st) :
    InvC7 cfg locs L0 (finalize cfg smd now st) := by
  unfold finalize
  dsimp only
  refine ⟨h.pend, ?_⟩
  intro v hvm
  rcases hvm with hvp | hvs | hvr
  · rcases mem_sinsert.mp hvp with rfl | hvp
    · exact Or.inr (Or.inr (Or.inr rfl))
    · exact h.rest v (Or.inl hvp)
  · exact h.rest v (Or.inr (Or.inl hvs))
  · exact h.rest v (Or.inr (Or.inr hvr))

theorem invC7_init (cfg : Cfg) (locs : List String) (L0 : List String) :
    InvC7 cfg locs L0 ⟨[], [], L0, [], [], []⟩ := by
  constructor
  · intro v hv
    cases hv
  · intro v hvm
    rcases hvm with hvp | hvs | hvr
    · cases hvp
    · cases hvs
    · exact Or.inr (Or.inr (Or.inl hvr))

/-- C7 (corrected): the claim's "not same-origin" quantification fails on
the code, because the acceptance test at lines 190/194 is a string-prefix
check: a link such as `https://ex.com.evil.io/x` is not same-origin with
`https://ex.com` (see `specSameOrigin` and the counterexample) yet is
accepted, crawled and recorded.  What holds is the claim restricted to the
code's actual filter: a URL whose string does not start with the top page
URL, and that is not otherwise fed into the run (not a sitemap entry
location, not in the startup retry ledger, and not the sitemap feed URL
itself), never appears in the pending worklist nor in the processed, skipped
or retry records of the completed run — such links are discarded
silently. -/
theorem C7_offdomain_discarded_silently (sv : Server) (cfg : Cfg) (smd : List SEntry)
    (now : String) (ledger0 : Option (List String)) (fuel : Nat) (u : String)
    (H5 : containsChar (topPageUrl cfg) '?' = false)
    (hu : startsWithStr u (topPageUrl cfg) = false)
    (hl : u ∉ smd.map (fun e => e.loc)) (h0 : u ∉ ledger0.getD [])
    (hs : u ≠ sitemapUrl cfg) :
    u ∉ (crawl sv cfg smd now ledger0 fuel).final.pending ∧
    u ∉ (crawl sv cfg smd now ledger0 fuel).final.processed ∧
    u ∉ (crawl sv cfg smd now ledger0 fuel).final.skipped ∧
    u ∉ (crawl sv cfg smd now ledger0 fuel).final.retryUrls := by
  have hfin : InvC7 cfg (smd.map (fun e => e.loc)) (ledger0.getD [])
      (crawlFinal sv cfg smd now ledger0 fuel) := by
    unfold crawlFinal
    dsimp only
    refine invC7_finalize _ _ _ _ _ _ ?_
    refine invC7_sitemapFold _ _ _ _ _ _ _
      (fun e he => List.mem_map.mpr ⟨e, he, rfl⟩) ?_
    refine invC7_runWorklist _ _ _ _ _ H5 _ _ ?_
    rw [seedTop_eq_dhAndMark]
    exact invC7_dhAndMark _ _ _ _ _ _ _ _
      (invC7_init cfg (smd.map (fun e => e.loc)) (ledger0.getD []))
      (Or.inl (startsWithStr_self (topPageUrl cfg)))
  have hnall : ¬ allowedUrl cfg (smd.map (fun e => e.loc)) (ledger0.getD []) u := by
    intro hall
    rcases hall with hpre | hlo | h00 | hsm
    · rw [hu] at hpre
      cases hpre
    · exact hl hlo
    · exact h0 h00
    · exact hs hsm
  refine ⟨?_, ?_, ?_, ?_⟩
  · intro hmem
    have := hfin.pend u hmem
    rw [hu] at this
    cases this
  · intro hmem
    exact hnall (hfin.rest u (Or.inl hmem))
  · intro hmem
    exact hnall (hfin.rest u (Or.inr (Or.inl hmem)))
  · intro hmem
    exact hnall (hfin.rest u (Or.inr (Or.inr hmem)))

/-- Witness for C7: in the run whose top page links both to
`https://other.com/x` and to the same-origin `https://ex.com/p`, the
same-origin link is crawled while the off-origin one appears nowhere. -/
theorem C7_witness :
    startsWithStr "https://other.com/x" (topPageUrl cfgEx) = false ∧
    "https://ex.com/p" ∈ runOffDomain.final.processed ∧
    "https://other.com/x" ∉ runOffDomain.final.pending ∧
    "https://other.com/x" ∉ runOffDomain.final.processed ∧
    "https://other.com/x" ∉ runOffDomain.final.skipped ∧
    "https://other.com/x" ∉ runOffDomain.final.retryUrls := by
  have h := C7_offdomain_discarded_silently svOffDomain cfgEx []
    "2024-01-01T00:00:00+0000" none 20 "https://other.com/x"
    (by decide) (by decide) (by decide) (by decide) (by decide)
  exact ⟨by decide, by decide, h.1, h.2.1, h.2.2.1, h.2.2.2⟩

/-- Counterexample to C7 as stated: `https://ex.com.evil.io/x` is not
same-origin with the top page (its host is `ex.com.evil.io`, which is not
the configured domain `ex.com`), yet it passes the string-prefix acceptance
test of lines 190/194, is collected into the pending link set, and ends the
run recorded in `processedUrls` — it is neither discarded nor silent. -/
theorem C7_counterexample :
    specSameOrigin cfgEx "https://ex.com.evil.io/x" = false ∧
    hostOf "https://ex.com.evil.io/x" = "ex.com.evil.io" ∧
    startsWithStr "https://ex.com.evil.io/x" (topPageUrl cfgEx) = true ∧
    "https://ex.com.evil.io/x" ∈
      extractLinks cfgEx "https://ex.com"
        (pageWith ["https://ex.com.evil.io/x", "https://other.com/x"]) ∧
    "https://ex.com.evil.io/x" ∈ runEvil.final.processed := by
  refine ⟨by decide, by decide, by decide, by decide, by decide⟩
